import Mathlib

/-
Verification of the Claw Town task/orchestration scripts.

This file gives a shallow embedding, in Lean 4, of the parts of the
repository needed to settle the claims about:
  - scripts/claw_town_tasklib.py        (per-task JSON files, ID counter)
  - scripts/claw_town_roles.py          (pipeline stages, release/reject)
  - scripts/dashboard_data.py           (agent status detection, nudges)
  - scripts/claw_town_dashboard.py      (outbox message broker)
  - scripts/claw_town_tasks_json.py     (tasks.json schema migration)

Modelling conventions:
  - Python dicts that hold JSON data are modelled as association lists
    (insertion-ordered, like Python dicts).
  - Wall-clock timestamps that are only stored, never branched on, are
    omitted from the model (created_at / updated_at / comment created_at).
  - Python floats used for times are modelled as rationals; no claim in
    scope depends on floating-point rounding.
  - Python string truthiness (empty string is falsy) is modelled
    explicitly wherever the source branches on it.
  - Functions that print an error and sys.exit(1) are modelled as
    returning the store unchanged together with the error message
    (except where the source mutates state before exiting: that partial
    mutation is modelled faithfully, see cmdAddBlocking).
-/

set_option maxHeartbeats 1000000

namespace ClawTown

/-! ## Generic string helpers (Python `in`, slicing, lower) -/

/-- Boolean test: does the first list start with the second? -/
def leadsWith : List Char → List Char → Bool
  | _, [] => true
  | [], _ :: _ => false
  | a :: as, b :: bs => a = b && leadsWith as bs

/-- Boolean test: does `pat` occur as a contiguous run inside `hay`?
Models the Python `pat in hay` substring operator. -/
def occursList (hay pat : List Char) : Bool :=
  match hay with
  | [] => pat.isEmpty
  | _ :: rest => leadsWith hay pat || occursList rest pat

/-- Python `pat in hay` on strings. -/
def occursStr (hay pat : String) : Bool :=
  occursList hay.toList pat.toList

/-- Python slice `s[-n:]` (last `n` characters; whole string when shorter). -/
def strTakeRight (s : String) (n : Nat) : String :=
  ⟨s.toList.drop (s.toList.length - n)⟩

/-- Python slice `s[:n]`. -/
def strTakeLeft (s : String) (n : Nat) : String :=
  ⟨s.toList.take n⟩

/-- Python slice `s[n:]`. -/
def strDropLeft (s : String) (n : Nat) : String :=
  ⟨s.toList.drop n⟩

/-- Python `str.lower()` (the inputs in scope are ASCII). -/
def strLower (s : String) : String :=
  ⟨s.toList.map Char.toLower⟩

/-- Python `str.upper()` (the inputs in scope are ASCII). -/
def strUpper (s : String) : String :=
  ⟨s.toList.map Char.toUpper⟩

/-- Python `str.strip()`: remove whitespace at both ends. -/
def strStrip (s : String) : String :=
  ⟨((s.toList.dropWhile Char.isWhitespace).reverse.dropWhile
      Char.isWhitespace).reverse⟩

/-- Python `str.startswith(pat)`. -/
def strStartsWith (s pat : String) : Bool :=
  leadsWith s.toList pat.toList

/-- Python `int(s)` restricted to plain digit strings (the general
`int()` also accepts signs and underscores; no claim in scope uses
those spellings). -/
def parseNat? (s : String) : Option Nat :=
  if s.toList ≠ [] ∧ s.toList.all Char.isDigit then
    some (s.toList.foldl (fun acc c => acc * 10 + (c.toNat - 48)) 0)
  else none

/-- Python `s.split(sep)` for a one-character separator. -/
def splitCharAux (c : Char) : List Char → List (List Char)
  | [] => [[]]
  | x :: xs =>
    let r := splitCharAux c xs
    if x = c then [] :: r
    else
      match r with
      | [] => [[x]]
      | h :: t => (x :: h) :: t

def splitChar (s : String) (c : Char) : List String :=
  (splitCharAux c s.toList).map (fun l => ⟨l⟩)

/-- The characters after the first occurrence of `pat` in `hay`
(`none` when `pat` does not occur). -/
def afterFirst (hay pat : List Char) : Option (List Char) :=
  match hay with
  | [] => if pat.isEmpty then some [] else none
  | _ :: rest =>
    if leadsWith hay pat then some (hay.drop pat.length)
    else afterFirst rest pat

theorem occursList_nil_pat {pat : List Char} (h : occursList [] pat = true) :
    pat = [] := by
  cases pat with
  | nil => rfl
  | cons a as => simp [occursList, List.isEmpty] at h

theorem occursStr_empty_hay {pat : String} (h : occursStr "" pat = true) :
    pat.toList = [] := by
  exact occursList_nil_pat h

/-! ## Decimal rendering (model of Python `%d`) -/

/-- Decimal digits of `n`, least significant first (empty for 0).
Structural on a fuel argument so the kernel can evaluate it; `fuel = n`
always suffices because `n / 10 < n`. -/
def digitsAux : Nat → Nat → List Char
  | _, 0 => []
  | 0, _ + 1 => []
  | fuel + 1, m + 1 =>
    Nat.digitChar ((m + 1) % 10) :: digitsAux fuel ((m + 1) / 10)

def natDigitsRev (n : Nat) : List Char :=
  digitsAux n n

/-- Decimal rendering of a natural number, as Python `str(n)` / `%d`. -/
def natToDec (n : Nat) : String :=
  if n = 0 then "0" else ⟨(natDigitsRev n).reverse⟩

/-- Value of a least-significant-first digit list (ghost decoder used in
proofs; not part of the source model). -/
def decValRev : List Char → Nat
  | [] => 0
  | c :: cs => (c.toNat - 48) + 10 * decValRev cs

theorem decValRev_digitChar (d : Nat) (h : d < 10) :
    (Nat.digitChar d).toNat - 48 = d := by
  interval_cases d <;> rfl

theorem decValRev_digitsAux :
    ∀ fuel n, n ≤ fuel → decValRev (digitsAux fuel n) = n := by
  intro fuel
  induction fuel with
  | zero => intro n hn; interval_cases n; rfl
  | succ f ih =>
    intro n hn
    match n with
    | 0 => rfl
    | m + 1 =>
      have hdiv : (m + 1) / 10 ≤ f := by omega
      rw [digitsAux, decValRev,
        decValRev_digitChar ((m + 1) % 10) (Nat.mod_lt _ (by omega)),
        ih _ hdiv]
      omega

theorem decValRev_natDigitsRev (n : Nat) : decValRev (natDigitsRev n) = n :=
  decValRev_digitsAux n n (Nat.le_refl n)

theorem digitsAux_all_digits :
    ∀ fuel n, ∀ c ∈ digitsAux fuel n, c.isDigit = true := by
  intro fuel
  induction fuel with
  | zero => intro n c hc; match n with
    | 0 => simp [digitsAux] at hc
    | _ + 1 => simp [digitsAux] at hc
  | succ f ih =>
    intro n c hc
    match n with
    | 0 => simp [digitsAux] at hc
    | m + 1 =>
      rw [digitsAux] at hc
      rcases List.mem_cons.mp hc with hc | hc
      · subst hc
        have h10 : (m + 1) % 10 < 10 := Nat.mod_lt _ (by omega)
        set d := (m + 1) % 10 with hd
        clear_value d
        interval_cases d <;> rfl
      · exact ih _ c hc

theorem natDigitsRev_all_digits (n : Nat) :
    ∀ c ∈ natDigitsRev n, c.isDigit = true :=
  digitsAux_all_digits n n

/-! ## Tasklib model (scripts/claw_town_tasklib.py)

Tasks are stored as individual JSON files in a `.tasks/` directory,
plus `counter.json` holding the next ID.  The directory is modelled as
an association list from file stem (the T-number) to the task record,
and the counter as the `next_id` value (`none` = file absent). -/

/-- A comment on a task (`cmd_comment` entries).  The source stores the
comment tag under the JSON key named for comment prefixes; it is called
`prefixTag` here because Lean reserves that identifier. -/
structure CommentEntry where
  id : Nat
  content : String
  prefixTag : Option String
  deriving Repr, DecidableEq

/-- One task file, with the fields written by `cmd_create` and mutated by
the other commands.  Timestamp fields are not modelled; `completedAt`
records only the presence of the `completed_at` key. -/
structure TaskFile where
  tNumber : String
  title : String
  description : String
  status : String
  tags : List String
  blocking : List String
  blockedBy : List String
  assignedTo : Option String
  comments : List CommentEntry
  stage : Option String
  owner : Option String
  priority : Option String
  completedAt : Bool
  deriving Repr, DecidableEq

/-- The `.tasks/` directory: the counter value and the task files keyed
by T-number. -/
structure TasksDir where
  counter : Option Nat
  files : List (String × TaskFile)
  deriving Repr, DecidableEq

def emptyDir : TasksDir := { counter := none, files := [] }

/-- `_format_t_number`: Python `f"T{num:03d}"` (zero-padded to at least
three digits, wider naturally). -/
def formatTNumber (num : Nat) : String :=
  "T" ++ (if num < 10 then "00" ++ natToDec num
          else if num < 100 then "0" ++ natToDec num
          else natToDec num)

/-- `_next_id`: read-or-default the counter, write back the increment,
return the read value.  The source serializes this under `.counter.lock`;
the model is the serialized behaviour. -/
def nextId (d : TasksDir) : Nat × TasksDir :=
  match d.counter with
  | none => (1, { d with counter := some 2 })
  | some n => (n, { d with counter := some (n + 1) })

/-- Association-list read of a task file (`_read_task` without the
error exit, which callers handle). -/
def readTask (d : TasksDir) (tn : String) : Option TaskFile :=
  (d.files.find? (fun kv => kv.1 = tn)).map (·.2)

/-- `_write_task`: replace the file if present, else create it. -/
def writeFiles (files : List (String × TaskFile)) (tn : String) (t : TaskFile) :
    List (String × TaskFile) :=
  match files with
  | [] => [(tn, t)]
  | (k, v) :: rest =>
    if k = tn then (tn, t) :: rest else (k, v) :: writeFiles rest tn t

def writeTask (d : TasksDir) (tn : String) (t : TaskFile) : TasksDir :=
  { d with files := writeFiles d.files tn t }

/-- `_parse_t_number`: strip, upcase, drop a leading `T`, parse as an
integer, reformat canonically.  Python `int()` accepts some exotic
spellings (signs, underscores) that `String.toNat?` does not; the claims
in scope use plain digit strings. -/
def parseTNumber (raw : String) : Option String :=
  let cleaned := strUpper (strStrip raw)
  let cleaned := if strStartsWith cleaned "T" then strDropLeft cleaned 1
    else cleaned
  (parseNat? cleaned).map formatTNumber

/-- `_normalize_status`: lowercase, hyphens and spaces to underscores,
then map the GraphQL-style synonyms; anything unrecognized passes
through unchanged. -/
def normalizeStatus (raw : String) : String :=
  let normalized :=
    ⟨(strLower raw).toList.map
      (fun c => if c = '-' ∨ c = ' ' then '_' else c)⟩
  if normalized = "no_progress" then "open"
  else if normalized = "planned" then "open"
  else if normalized = "in_progress" then "in_progress"
  else if normalized = "blocked" then "blocked"
  else if normalized = "closed" then "closed"
  else normalized

/-- Python string truthiness on an optional argument: `None` and the
empty string are falsy. -/
def optTruthy : Option String → Bool
  | none => false
  | some s => s ≠ ""

/-- Split a comma-separated tag string, strip entries, drop empties
(`[t.strip() for t in args.tags.split(",") if t.strip()]`). -/
def splitTags (s : String) : List String :=
  ((splitChar s ',').map strStrip).filter (fun t => t ≠ "")

/-- Arguments of the `create` subcommand. -/
structure CreateArgs where
  title : String
  description : Option String := none
  tags : Option String := none
  assignedTo : Option String := none
  progress : Option String := none
  stage : Option String := none
  owner : Option String := none
  deriving Repr

/-- `cmd_create`.  Always succeeds in the model (the source only fails on
I/O errors). -/
def cmdCreate (args : CreateArgs) (d : TasksDir) : TasksDir :=
  let (taskId, d) := nextId d
  let tn := formatTNumber taskId
  let tags0 := match args.tags with
    | some s => if s ≠ "" then splitTags s else []
    | none => []
  let tags := if "claw-town" ∈ tags0 then tags0 else tags0 ++ ["claw-town"]
  let task : TaskFile :=
    { tNumber := tn
      title := args.title
      description := args.description.getD "No description provided"
      status := "open"
      tags := tags
      blocking := []
      blockedBy := []
      assignedTo := args.assignedTo
      comments := []
      stage := args.stage
      owner := args.owner
      priority := none
      completedAt := false }
  let task := if optTruthy args.progress
    then { task with status := normalizeStatus (args.progress.getD "") }
    else task
  writeTask d tn task

/-- Arguments of the `update` subcommand. -/
structure UpdateArgs where
  status : Option String := none
  title : Option String := none
  description : Option String := none
  priority : Option String := none
  tags : Option String := none
  stage : Option String := none
  owner : Option String := none
  deriving Repr

/-- Tag merge in `cmd_update`: append the new tags not already present. -/
def mergeTags (existing new : List String) : List String :=
  new.foldl (fun acc tag => if tag ∈ acc then acc else acc ++ [tag]) existing

/-- `cmd_update`.  Returns the directory after the command together with
the error message when the command printed one and exited 1.  Note the
source checks most flags for truthiness but `stage` and `owner` only for
being present (`is not None`). -/
def applyUpdates (args : UpdateArgs) (task0 : TaskFile) :
    TaskFile × List String :=
  let task1 := if optTruthy args.status
    then { task0 with status := normalizeStatus (args.status.getD "") }
    else task0
  let f1 := if optTruthy args.status then ["status"] else []
  let task2 := if optTruthy args.title
    then { task1 with title := args.title.getD "" } else task1
  let f2 := f1 ++ (if optTruthy args.title then ["title"] else [])
  let task3 := if optTruthy args.description
    then { task2 with description := args.description.getD "" } else task2
  let f3 := f2 ++
    (if optTruthy args.description then ["description"] else [])
  let task4 := if optTruthy args.priority
    then { task3 with priority := args.priority } else task3
  let f4 := f3 ++ (if optTruthy args.priority then ["priority"] else [])
  let task5 := if optTruthy args.tags
    then { task4 with
      tags := mergeTags task4.tags (splitTags (args.tags.getD "")) }
    else task4
  let f5 := f4 ++ (if optTruthy args.tags then ["tags"] else [])
  let task6 := match args.stage with
    | some s => { task5 with stage := some s }
    | none => task5
  let f6 := f5 ++ (match args.stage with
    | some _ => ["stage"]
    | none => [])
  let task7 := match args.owner with
    | some o => { task6 with owner := if o = "none" then none else some o }
    | none => task6
  let f7 := f6 ++ (match args.owner with
    | some _ => ["owner"]
    | none => [])
  (task7, f7)

def cmdUpdate (rawTn : String) (args : UpdateArgs) (d : TasksDir) :
    TasksDir × Option String :=
  match parseTNumber rawTn with
  | none => (d, some "invalid T-number")
  | some tn =>
    match readTask d tn with
    | none => (d, some "task not found")
    | some task0 =>
      if (applyUpdates args task0).2 = [] then
        (d, some "No fields to update")
      else (writeTask d tn (applyUpdates args task0).1, none)

/-- `cmd_close`: set status closed, stamp `completed_at`. -/
def cmdClose (rawTn : String) (d : TasksDir) : TasksDir × Option String :=
  match parseTNumber rawTn with
  | none => (d, some "invalid T-number")
  | some tn =>
    match readTask d tn with
    | none => (d, some "task not found")
    | some task =>
      (writeTask d tn { task with status := "closed", completedAt := true },
       none)

/-- `cmd_add_blocking`.  Faithful to the source's sequencing: the
blocker's `blocking` list is written BEFORE the blocked task is read, so
a missing blocked task leaves a one-sided link behind (the source exits
with an error at `_read_task` after the first `_write_task`). -/
def cmdAddBlocking (rawBlocker rawBlocked : String) (d : TasksDir) :
    TasksDir × Option String :=
  match parseTNumber rawBlocker with
  | none => (d, some "invalid T-number")
  | some blockerTn =>
    match parseTNumber rawBlocked with
    | none => (d, some "invalid T-number")
    | some blockedTn =>
      match readTask d blockerTn with
      | none => (d, some "blocker not found")
      | some blockerData =>
        let blocking := if blockedTn ∈ blockerData.blocking
          then blockerData.blocking else blockerData.blocking ++ [blockedTn]
        let d1 := writeTask d blockerTn { blockerData with blocking := blocking }
        match readTask d1 blockedTn with
        | none => (d1, some "blocked not found")
        | some blockedData =>
          let blockedBy := if blockerTn ∈ blockedData.blockedBy
            then blockedData.blockedBy else blockedData.blockedBy ++ [blockerTn]
          (writeTask d1 blockedTn { blockedData with blockedBy := blockedBy },
           none)

/-! ## Operation sequences over the task store (for the link-symmetry
invariant) -/

/-- The operations quantified over by the link-symmetry claim. -/
inductive TaskOp where
  | create (args : CreateArgs)
  | addBlocking (blocker blocked : String)
  | update (tn : String) (args : UpdateArgs)
  | close (tn : String)

/-- Run one operation, returning the resulting store and the error, if
the command printed one. -/
def runOp (op : TaskOp) (d : TasksDir) : TasksDir × Option String :=
  match op with
  | .create args => (cmdCreate args d, none)
  | .addBlocking blocker blocked => cmdAddBlocking blocker blocked d
  | .update tn args => cmdUpdate tn args d
  | .close tn => cmdClose tn d

def applyOps (d : TasksDir) (ops : List TaskOp) : TasksDir :=
  ops.foldl (fun acc op => (runOp op acc).1) d

/-- Along a trace, every `add-blocking` operation succeeded (its blocked
argument named an existing task).  Other operations may fail freely. -/
def addBlockingAllOk : TasksDir → List TaskOp → Prop
  | _, [] => True
  | d, op :: rest =>
    (match op with
     | .addBlocking _ _ => (runOp op d).2 = none
     | _ => True) ∧ addBlockingAllOk (runOp op d).1 rest

/-- The link-symmetry invariant of the claim: for all tasks A and B in
the store, B is in A's `blocking` iff A is in B's `blocked_by`. -/
def linkSymm (d : TasksDir) : Prop :=
  ∀ a b ta tb, readTask d a = some ta → readTask d b = some tb →
    (b ∈ ta.blocking ↔ a ∈ tb.blockedBy)

/-! ## Pipeline model (scripts/claw_town_roles.py) -/

/-- `PIPELINE_STAGES`. -/
def pipelineStages : List String :=
  ["pm", "tech-lead", "intern", "code-review", "perf-check", "qa-test",
   "design-audit", "done"]

/-- `PIPELINE_STAGES.index(c)` wrapped in the source's try/except:
`none` when absent. -/
def stageIndexAux (c : String) : List String → Nat → Option Nat
  | [], _ => none
  | s :: rest, i => if s = c then some i else stageIndexAux c rest (i + 1)

def stageIndex (c : String) : Option Nat :=
  stageIndexAux c pipelineStages 0

/-- `next_stage`: the next stage in the pipeline, or `none` at the end
or for an unknown stage. -/
def nextStage (current : String) : Option String :=
  match stageIndex current with
  | none => none
  | some idx =>
    if idx + 1 ≥ pipelineStages.length then none
    else pipelineStages.get? (idx + 1)

/-- `REJECT_ALLOWED.get(stage, [])`: which earlier stages a stage may
reject to. -/
def rejectAllowed (c : String) : List String :=
  if c = "code-review" then ["intern"]
  else if c = "perf-check" then ["intern"]
  else if c = "qa-test" then ["intern"]
  else if c = "design-audit" then ["intern"]
  else if c = "intern" then ["pm", "tech-lead"]
  else if c = "tech-lead" then ["pm"]
  else []

/-- `PIPELINE_STAGES.index(s) if s in PIPELINE_STAGES else -1`, as an
integer (the reject command compares indices with possibly -1 on the
current-stage side). -/
def stageIdxOrNeg (c : String) : Int :=
  match stageIndex c with
  | some i => (i : Int)
  | none => -1

/-- Python `x or y` on an optional string (falsy: None and ""). -/
def strOrElse (a : Option String) (b : String) : String :=
  match a with
  | some s => if s = "" then b else s
  | none => b

/-- `cmd_release` on one task record (the task has already been read;
T-number parsing and the not-found error are the caller's).  Mirrors
lines 198-236 of claw_town_roles.py, including the Python truthiness
check `next_stage(current_stage) if current_stage else None` and the
fallback `new_stage or "done"`. -/
def cmdRelease (task : TaskFile) : Except String TaskFile :=
  let currentStage := task.stage
  let currentOwner := task.owner
  if currentOwner = none then
    .error "no owner to release"
  else
    let newStage : Option String :=
      match currentStage with
      | some c => if c = "" then none else nextStage c
      | none => none
    if newStage = none ∧ currentStage ≠ some "done" then
      .error "unknown stage, cannot advance"
    else
      let task := { task with
        owner := none
        stage := some (strOrElse newStage "done") }
      let task := if newStage = some "done" ∨ newStage = none
        then { task with status := "closed" }
        else { task with status := "open" }
      .ok task

/-- `cmd_reject` on one task record: allow-list check, backward-index
check, then clear owner, move the stage back, set status open, and
append the REJECTED-tagged comment whose content ends with the reason. -/
def cmdReject (task : TaskFile) (targetStage reason : String) :
    Except String TaskFile :=
  if targetStage ∉ pipelineStages then
    .error "unknown stage"
  else
    let currentStage := task.stage
    let currentOwner := task.owner
    let allowedTargets := match currentStage with
      | some c => rejectAllowed c
      | none => []
    if targetStage ∉ allowedTargets then
      .error "cannot reject to target"
    else
      let currentIdx := match currentStage with
        | some c => stageIdxOrNeg c
        | none => -1
      let targetIdx := stageIdxOrNeg targetStage
      if targetIdx ≥ currentIdx then
        .error "cannot reject forward"
      else
        let task := { task with
          owner := none
          stage := some targetStage
          status := "open" }
        let commentContent :=
          "Rejected from " ++ (match currentStage with
            | some c => c
            | none => "None") ++
          " back to " ++ targetStage ++ " (by " ++
          strOrElse currentOwner "unknown" ++ "): " ++ reason
        let commentId := task.comments.length + 1
        .ok { task with
          comments := task.comments ++
            [{ id := commentId, content := commentContent,
               prefixTag := some "REJECTED" }] }

/-- The stage reached after `k` successful releases starting from the
first pipeline stage (`pm`): iterate `next_stage`. -/
def stageIter : Nat → Option String
  | 0 => some "pm"
  | k + 1 => (stageIter k).bind nextStage

/-- The list of stage values visited by `k` successful releases starting
at `pm` (including the start). -/
def stageChain (k : Nat) : List String :=
  (List.range (k + 1)).filterMap stageIter

/-! ## Dashboard data model (scripts/dashboard_data.py) -/

namespace AgentStatus

def working : String := "working"
def completed : String := "completed"
def needsInput : String := "needs_input"
def needsHuman : String := "needs_human"
def needsOrchestrator : String := "needs_orchestrator"
def needsAgent : String := "needs_agent"
def sleeping : String := "sleeping"
def free : String := "free"
def unknown : String := "unknown"

end AgentStatus

namespace OrchestratorStatus

def working : String := "working"
def waitingForHuman : String := "waiting_for_human"
def waitingForAgent : String := "waiting_for_agent"
def waitingForSubOrch : String := "waiting_for_sub_orch"
def idle : String := "idle"
def unknown : String := "unknown"

end OrchestratorStatus

/-- The completion signals of step 1 of `detect_agent_status`. -/
def completionSignals : List String :=
  ["task_complete", "task complete", "taskcomplete"]

/-- The human-input prompt patterns (pattern, detail), in source order. -/
def humanPatterns : List (String × String) :=
  [("1.", "choose option"), ("2.", "choose option"), ("(y/n)", "confirm"),
   ("[y/N]", "confirm"), ("[Y/n]", "confirm"), ("Which", "question"),
   ("What would you like", "question"), ("Please select", "choose"),
   ("Choose", "choose"), ("Enter your", "input needed"),
   ("Type your", "input needed"), ("?", "question")]

/-- The orchestrator-waiting patterns, in source order. -/
def orchestratorPatterns : List (String × String) :=
  [("waiting for task", "next task"), ("waiting for assignment", "assignment"),
   ("ready for next", "next task"), ("what should i", "direction"),
   ("awaiting instructions", "instructions"),
   ("TASK_NEEDS_CLARIFICATION", "clarification")]

/-- The sleeping/polling patterns, in source order. -/
def sleepPatterns : List (String × String) :=
  [("sleeping", "polling"), ("waiting for", "waiting"),
   ("polling", "polling"), ("watching", "monitoring"),
   ("monitoring", "monitoring")]

/-- The busy indicators, in source order. -/
def busyPatterns : List String :=
  ["esc to interrupt", "press esc to interrupt", "✻", "⠋", "⠙", "⠹", "⠸",
   "Thinking...", "Running:"]

/-- Model of the reason extraction from the regex search for
`TASK_BLOCKED:` (lazy match of the rest of the line, stripped, first 30
characters; "blocked" when the colon form is absent or the rest is
empty; leading whitespace, newlines included, is skipped). -/
def taskBlockedReason (recent : String) : String :=
  match afterFirst recent.toList "TASK_BLOCKED:".toList with
  | none => "blocked"
  | some rest =>
    let afterWs := rest.dropWhile (fun c => c.isWhitespace)
    let line := afterWs.takeWhile (fun c => c ≠ '\n')
    if line = [] then "blocked"
    else strTakeLeft (strStrip ⟨line⟩) 30

/-- `detect_agent_status`: the pure classifier of pane output, with the
source's rule priority.  Returns `(status, detail)`. -/
def detectAgentStatus (paneOutput : String) : String × String :=
  if paneOutput = "" then (AgentStatus.unknown, "")
  else
    let lowerOutput := strLower paneOutput
    let recent := strTakeRight paneOutput 800
    let recentLower := strLower recent
    if completionSignals.any (fun signal => occursStr recentLower signal) then
      (AgentStatus.completed, "completed")
    else if occursStr recent "TASK_BLOCKED" then
      (AgentStatus.needsAgent, taskBlockedReason recent)
    else
      match humanPatterns.find?
          (fun p => occursStr (strTakeRight recent 200) p.1) with
      | some p => (AgentStatus.needsHuman, p.2)
      | none =>
        match orchestratorPatterns.find?
            (fun p => occursStr lowerOutput (strLower p.1)) with
        | some p => (AgentStatus.needsOrchestrator, p.2)
        | none =>
          match sleepPatterns.find?
              (fun p => occursStr (strTakeRight lowerOutput 300)
                (strLower p.1)) with
          | some p => (AgentStatus.sleeping, p.2)
          | none =>
            if occursStr lowerOutput "inbox" ∨
                occursStr lowerOutput "status watcher" then
              (AgentStatus.sleeping, "daemon")
            else if busyPatterns.any
                (fun p => occursStr lowerOutput (strLower p)) then
              (AgentStatus.working, "")
            else if occursStr (strTakeRight recent 100) "❯" then
              (AgentStatus.needsOrchestrator, "idle")
            else (AgentStatus.needsInput, "")

/-- One agent dict as consulted by `should_nudge`
(`a.get("status")`). -/
structure AgentView where
  status : Option String
  deriving Repr

/-- One task dict as consulted by `should_nudge` / `is_task_ready`.
The three alternative blocker keys mirror the source's fallback chain
`blocked_by or blockedBy or depends_on`. -/
structure TaskView where
  id : Option String
  status : Option String
  owner : Option String
  blockedBy : Option (List String)
  blockedByCamel : Option (List String)
  dependsOn : Option (List String)
  deriving Repr

/-- Keep an optional list only when it is Python-truthy (present and
non-empty). -/
def listTruthy : Option (List String) → Option (List String)
  | some l => if l = [] then none else some l
  | none => none

/-- Python-truthy selection of the first non-empty blocker list
(`task.get("blocked_by") or task.get("blockedBy") or
task.get("depends_on") or []`). -/
def taskBlockers (t : TaskView) : List String :=
  match listTruthy t.blockedBy with
  | some l => l
  | none =>
    match listTruthy t.blockedByCamel with
    | some l => l
    | none =>
      match listTruthy t.dependsOn with
      | some l => l
      | none => []

/-- `is_task_ready`: status open/pending and every blocker completed. -/
def isTaskReady (task : TaskView) (allTasks : List TaskView) : Bool :=
  if task.status ≠ some "open" ∧ task.status ≠ some "pending" then false
  else
    let blockedBy := taskBlockers task
    if blockedBy = [] then true
    else blockedBy.all (fun b =>
      (allTasks.reverse.find? (fun t => t.id = some b)).bind (·.status) =
        some "completed")

/-- `should_nudge`: the pure nudge decision for the orchestrator.
The `waiting_for_human` guard is the first statement of the body. -/
def shouldNudge (idleTime nudgeInterval lastNudgeTime nudgeCooldown : ℚ)
    (nudgeCount : Int) (now : ℚ) (agents : List AgentView)
    (tasks : List TaskView) (orchestratorStatus : String) : Bool :=
  if orchestratorStatus = OrchestratorStatus.waitingForHuman then false
  else
    let cooldownElapsed := now - lastNudgeTime > nudgeCooldown
    if idleTime < nudgeInterval then false
    else if ¬ cooldownElapsed then false
    else
      let needsInput := agents.filter
        (fun a => a.status = some AgentStatus.needsInput)
      let readyTasks := tasks.filter
        (fun t => isTaskReady t tasks && !(optTruthy t.owner))
      !needsInput.isEmpty || !readyTasks.isEmpty

/-! ## Outbox message broker model (scripts/claw_town_dashboard.py,
`process_outbox` and `_expire_stuck_messages`)

Each message is a JSON file in `outbox/pending/`.  A message is
modelled by its filename, its payload as the drain loop reads it
(`malformed` when `json.loads` raises, otherwise the values of the
`get` calls with their defaults), and its filesystem mtime (used for
the age of messages whose `queued_at` is falsy).  A drain tick models
one execution of the body of `process_outbox` past its rate gate and
lock acquisition; delivery success (`_send_message_atomic`) is an
oracle indexed by filename. -/

inductive MsgPayload where
  | malformed
  | parsed (target content source : String) (queuedAt : ℚ) (priority : Int)
  deriving Repr, DecidableEq

structure OutMsg where
  name : String
  payload : MsgPayload
  mtime : ℚ
  deriving Repr, DecidableEq

/-- The broker directories plus the ack sidecar store (ack records are
keyed by message filename). -/
structure Outbox where
  pending : List OutMsg
  sent : List OutMsg
  expired : List OutMsg
  delivAcks : List String
  failAcks : List String
  deriving Repr, DecidableEq

/-- `self.outbox_message_ttl = 300`. -/
def outboxTtl : ℚ := 300

/-- Insertion sort by filename: `sorted(self.outbox_pending.glob("*.json"))`. -/
def insertByName (m : OutMsg) : List OutMsg → List OutMsg
  | [] => [m]
  | x :: xs => if m.name ≤ x.name then m :: x :: xs else x :: insertByName m xs

def sortByName (l : List OutMsg) : List OutMsg :=
  l.foldr insertByName []

/-- Age of a message in `_expire_stuck_messages`:
`now - queued_at if queued_at else now - mtime`. -/
def msgAge (now : ℚ) (queuedAt mtime : ℚ) : ℚ :=
  if queuedAt ≠ 0 then now - queuedAt else now - mtime

/-- `_expire_stuck_messages` over the pending listing: returns
(still pending, newly expired, failure acks recorded).  A message whose
JSON fails to parse raises inside the loop body; the exception is
caught, logged, and the file is left in place. -/
def expirePass (now : ℚ) : List OutMsg →
    List OutMsg × List OutMsg × List String
  | [] => ([], [], [])
  | m :: rest =>
    let r := expirePass now rest
    match m.payload with
    | .malformed => (m :: r.1, r.2.1, r.2.2)
    | .parsed _ _ _ q _ =>
      if msgAge now q m.mtime > outboxTtl
      then (r.1, m :: r.2.1, m.name :: r.2.2)
      else (m :: r.1, r.2.1, r.2.2)

/-- The message-processing step of `process_outbox`: pick the first
pending message and dispatch on its payload.  Delivered messages move
to `sent/` with a delivery ack; invalid (empty target or content) and
corrupted (malformed JSON) messages move to `expired/` with no ack;
failed sends stay pending. -/
def processHead (sendOk : String → Bool) (box1 : Outbox) : Outbox :=
  match box1.pending with
  | [] => box1
  | m :: rest =>
    match m.payload with
    | .malformed =>
      { box1 with pending := rest, expired := box1.expired ++ [m] }
    | .parsed target content _ _ _ =>
      if target ≠ "" ∧ content ≠ "" then
        if sendOk m.name then
          { box1 with
            pending := rest
            sent := box1.sent ++ [m]
            delivAcks := box1.delivAcks ++ [m.name] }
        else box1
      else
        { box1 with pending := rest, expired := box1.expired ++ [m] }

/-- One drain tick (`process_outbox` past the rate gate, with the broker
lock acquired): sort pending, run the TTL sweep, then process the first
remaining message. -/
def outboxTick (now : ℚ) (sendOk : String → Bool) (box : Outbox) : Outbox :=
  let swept := expirePass now (sortByName box.pending)
  processHead sendOk { box with
    pending := swept.1
    expired := box.expired ++ swept.2.1
    failAcks := box.failAcks ++ swept.2.2 }

/-- Repeated drain ticks. -/
def outboxTicks (box : Outbox) : List (ℚ × (String → Bool)) → Outbox
  | [] => box
  | (now, f) :: rest => outboxTicks (outboxTick now f box) rest

/-- The dispositions claimed by the ack-balance property for one
message: moved to `sent/` with a matching delivery ack, or moved to
`expired/` with a matching failure ack. -/
def ackBalance (box : Outbox) (m : OutMsg) : Prop :=
  (m ∈ box.sent ∧ m.name ∈ box.delivAcks) ∨
  (m ∈ box.expired ∧ m.name ∈ box.failAcks)

/-! ## tasks.json model (scripts/claw_town_tasks_json.py)

The document is JSON; Python dicts are modelled as insertion-ordered
association lists with Python's dict operation semantics (assignment
replaces in place or appends, `setdefault` appends only when the key is
absent, `pop` removes). -/

inductive JVal where
  | jnull
  | jbool (b : Bool)
  | jint (n : Int)
  | jstr (s : String)
  | jarr (xs : List JVal)
  | jobj (kvs : List (String × JVal))

abbrev JDict := List (String × JVal)

def dGet : JDict → String → Option JVal
  | [], _ => none
  | (k, v) :: rest, key => if k = key then some v else dGet rest key

def dContains (d : JDict) (key : String) : Bool :=
  (dGet d key).isSome

/-- Python dict assignment `d[key] = v`. -/
def dSet : JDict → String → JVal → JDict
  | [], key, v => [(key, v)]
  | (k, w) :: rest, key, v =>
    if k = key then (k, v) :: rest else (k, w) :: dSet rest key v

/-- Python `d.pop(key, None)` (the removal part). -/
def dErase : JDict → String → JDict
  | [], _ => []
  | (k, w) :: rest, key => if k = key then rest else (k, w) :: dErase rest key

/-- Python `d.setdefault(key, v)` (the mutation part). -/
def dSetdefault (d : JDict) (key : String) (v : JVal) : JDict :=
  if dContains d key then d else d ++ [(key, v)]

/-- Python truthiness of a JSON value. -/
def jTruthy : JVal → Bool
  | .jnull => false
  | .jbool b => b
  | .jint n => n ≠ 0
  | .jstr s => s ≠ ""
  | .jarr xs => !xs.isEmpty
  | .jobj kvs => !kvs.isEmpty

/-- Python `a or b` over optional JSON values (a missing key reads as
`None`). -/
def jOr (a b : Option JVal) : Option JVal :=
  match a with
  | some v => if jTruthy v then some v else b
  | none => b

/-- `migrated.get("status") is None`: true when the key is absent or
explicitly null. -/
def statusIsNone (m : JDict) : Bool :=
  match dGet m "status" with
  | none => true
  | some .jnull => true
  | some _ => false

/-- `_migrate_task_entry`: rename the legacy field names, drop `agent`,
fill defaults.  Each branch mirrors the source's evaluation order
(`pop` before assignment). -/
def migrateEntry (entry : JDict) : JDict :=
  let m := entry
  let m :=
    if dContains m "window" && !dContains m "agent_window" then
      dSet (dErase m "window") "agent_window" ((dGet m "window").getD .jnull)
    else if dContains m "window" && dContains m "agent_window" then
      dErase m "window"
    else m
  let m :=
    if dContains m "state" then
      if statusIsNone m && !dContains m "agent_state" then
        dSet (dErase m "state") "status" ((dGet m "state").getD .jnull)
      else dErase m "state"
    else m
  let m :=
    if dContains m "agent_state" then
      if statusIsNone m then
        dSet (dErase m "agent_state") "status"
          ((dGet m "agent_state").getD .jnull)
      else dErase m "agent_state"
    else m
  let m := dErase m "agent"
  let m := dSetdefault m "title" .jnull
  let m := dSetdefault m "blocked_by" (.jarr [])
  let m := dSetdefault m "status" (.jstr "pending")
  let m := dSetdefault m "name" .jnull
  let m := dSetdefault m "agent_window" .jnull
  let m := dSetdefault m "created_by" (.jstr "claw-town")
  let m := dSetdefault m "last_synced" .jnull
  m

/-- The `known_tasks` loop of `_migrate_data`: keep T-keyed entries,
re-key numeric-ID entries by a T-prefixed `t_number`/`task_number`
string, drop the rest.  A non-dict entry value would crash the source
and is skipped here. -/
def migrateKnown (acc : JDict) : List (String × JVal) → JDict
  | [] => acc
  | (key, entryV) :: rest =>
    match entryV with
    | .jobj e =>
      if strStartsWith key "T" then
        migrateKnown (dSet acc key (.jobj (migrateEntry e))) rest
      else
        match jOr (dGet e "t_number") (dGet e "task_number") with
        | some (.jstr t) =>
          if t ≠ "" && strStartsWith t "T" then
            migrateKnown (dSet acc t (.jobj (migrateEntry e))) rest
          else migrateKnown acc rest
        | _ => migrateKnown acc rest
    | _ => migrateKnown acc rest

/-- The legacy `tasks: []` loop of `_migrate_data`: promote array
entries into `known_tasks`, keyed by a truthy `t_number`/`task_number`,
else by a T-prefixed string `id`; never overwrite an existing key.
A truthy non-string T-number would give the Python dict a non-string
key; such documents are outside the model. -/
def legacyPromote (acc : JDict) : List JVal → JDict
  | [] => acc
  | taskV :: rest =>
    match taskV with
    | .jobj task =>
      let tn0 := jOr (dGet task "t_number") (dGet task "task_number")
      let tnTruthy : Option JVal :=
        match tn0 with
        | some v => if jTruthy v then some v else none
        | none => none
      match tnTruthy with
      | some (.jstr t) =>
        if !dContains acc t then
          legacyPromote (dSet acc t (.jobj (migrateEntry task))) rest
        else legacyPromote acc rest
      | some _ => legacyPromote acc rest
      | none =>
        match dGet task "id" with
        | some (.jstr s) =>
          if strStartsWith s "T" && !dContains acc s then
            legacyPromote (dSet acc s (.jobj (migrateEntry task))) rest
          else legacyPromote acc rest
        | _ => legacyPromote acc rest
    | _ => legacyPromote acc rest

/-- `_migrate_data`: migrate `known_tasks`, promote a legacy `tasks`
array (and drop it), then fill the top-level defaults. -/
def migrateData (data : JDict) : JDict :=
  let known : List (String × JVal) :=
    match dGet data "known_tasks" with
    | some (.jobj kvs) => kvs
    | _ => []
  let migratedTasks := migrateKnown [] known
  let step : JDict × JDict :=
    match dGet data "tasks" with
    | some (.jarr taskList) =>
      (legacyPromote migratedTasks taskList, dErase data "tasks")
    | _ => (migratedTasks, data)
  let data := dSet step.2 "known_tasks" (.jobj step.1)
  let data := dSetdefault data "project" (.jstr "unknown")
  let data := dSetdefault data "root_task" .jnull
  let data := dSetdefault data "working_dir" .jnull
  let data := dSetdefault data "gsd_url" .jnull
  let data := dSetdefault data "gsd_project_id" .jnull
  let data := dSetdefault data "last_dag_walk" .jnull
  let data := dSetdefault data "last_gsd_poll" .jnull
  data

/-- `load` on an existing file whose parsed JSON is `d`:
`_migrate_data` applied to it.  `save` writes the document verbatim, so
`load(save(X)) = migrateData X`. -/
def loadDoc (d : JDict) : JDict :=
  migrateData d

/-- Key list of an association list. -/
def dKeys (d : JDict) : List String :=
  d.map (·.1)

def keysNodup : JDict → Bool
  | [] => true
  | (k, _) :: rest => !(rest.any (fun kv => kv.1 = k)) && keysNodup rest

/-- An entry in the normalized schema: no legacy field names, all cached
and operational fields present. -/
def isNormalizedEntry (e : JDict) : Bool :=
  !dContains e "window" && !dContains e "state" && !dContains e "agent_state"
    && !dContains e "agent"
    && dContains e "title" && dContains e "blocked_by" && dContains e "status"
    && dContains e "name" && dContains e "agent_window"
    && dContains e "created_by" && dContains e "last_synced"

/-- A document in the normalized schema: `known_tasks` is a dict with
unique T-prefixed keys and normalized dict entries, there is no legacy
`tasks` array, and every top-level field is present. -/
def isNormalized (d : JDict) : Bool :=
  match dGet d "known_tasks" with
  | some (.jobj kts) =>
    keysNodup kts &&
    kts.all (fun kv =>
      strStartsWith kv.1 "T" &&
      (match kv.2 with
       | .jobj e => isNormalizedEntry e
       | _ => false)) &&
    !dContains d "tasks" &&
    dContains d "project" && dContains d "root_task" &&
    dContains d "working_dir" && dContains d "gsd_url" &&
    dContains d "gsd_project_id" && dContains d "last_dag_walk" &&
    dContains d "last_gsd_poll"
  | _ => false

/-- `add_task` as it acts on the document held under the lock
(`locked_update` yields the migrated data; these are lines 560-573).
The backward-compatible alias resolution for the window and status
arguments mirrors the source's falsy-or chains. -/
def addTaskData (data : JDict) (tNumber : String) (title : Option String)
    (status : String) (blockedBy : List String) (name : Option String)
    (agentWindow : Option String) (createdBy : String)
    (agent window state agentState : Option String) : JDict :=
  let resolvedWindow : Option String :=
    match agentWindow with
    | some s => if s ≠ "" then some s else window
    | none => window
  let resolvedWindow : Option String :=
    match agent with
    | some a =>
      if a ≠ "" ∧ ¬ optTruthy resolvedWindow then some a else resolvedWindow
    | none => resolvedWindow
  let resolvedStatus : String :=
    strOrElse agentState (strOrElse state status)
  let data' := dSetdefault data "known_tasks" (.jobj [])
  match dGet data' "known_tasks" with
  | some (.jobj kts) =>
    if dContains kts tNumber then data'
    else
      let entry : JDict :=
        [("title", match title with | some t => .jstr t | none => .jnull),
         ("blocked_by", .jarr (blockedBy.map .jstr)),
         ("status", .jstr resolvedStatus),
         ("name", match name with | some n => .jstr n | none => .jnull),
         ("agent_window",
           match resolvedWindow with | some w => .jstr w | none => .jnull),
         ("created_by", .jstr createdBy),
         ("last_synced", .jnull)]
      dSet data' "known_tasks" (.jobj (kts ++ [(tNumber, .jobj entry)]))
  | _ => data'

/-- `add_task` at the file level: `locked_update` migrates the stored
document before the body runs and writes the result back. -/
def addTaskOnFile (fileDoc : JDict) (tNumber : String) (title : Option String)
    (status : String) (blockedBy : List String) (name : Option String)
    (agentWindow : Option String) (createdBy : String)
    (agent window state agentState : Option String) : JDict :=
  addTaskData (migrateData fileDoc) tNumber title status blockedBy name
    agentWindow createdBy agent window state agentState

/-! ## Store lemmas -/

theorem find_writeFiles_same (files : List (String × TaskFile)) (tn : String)
    (t : TaskFile) :
    (writeFiles files tn t).find? (fun kv => kv.1 = tn) = some (tn, t) := by
  induction files with
  | nil => simp [writeFiles, List.find?]
  | cons kv rest ih =>
    obtain ⟨k, v⟩ := kv
    rw [writeFiles]
    by_cases hk : k = tn
    · simp [hk, List.find?]
    · simp only [hk, if_false]
      rw [List.find?]
      simp only [hk, decide_eq_true_eq, decide_False]
      simpa [hk] using ih

theorem find_writeFiles_ne (files : List (String × TaskFile)) (tn : String)
    (t : TaskFile) (tn' : String) (h : tn' ≠ tn) :
    (writeFiles files tn t).find? (fun kv => kv.1 = tn') =
      files.find? (fun kv => kv.1 = tn') := by
  induction files with
  | nil => simp [writeFiles, List.find?, Ne.symm h]
  | cons kv rest ih =>
    obtain ⟨k, v⟩ := kv
    rw [writeFiles]
    by_cases hk : k = tn
    · subst hk
      simp [List.find?, Ne.symm h]
    · simp only [hk, if_false]
      rw [List.find?, List.find?]
      by_cases hk' : k = tn'
      · simp [hk']
      · simpa [hk'] using ih

theorem readTask_writeTask_same (d : TasksDir) (tn : String) (t : TaskFile) :
    readTask (writeTask d tn t) tn = some t := by
  show ((writeFiles d.files tn t).find? (fun kv => kv.1 = tn)).map _ = _
  rw [find_writeFiles_same]
  rfl

theorem readTask_writeTask_ne (d : TasksDir) (tn : String) (t : TaskFile)
    (tn' : String) (h : tn' ≠ tn) :
    readTask (writeTask d tn t) tn' = readTask d tn' := by
  show ((writeFiles d.files tn t).find? (fun kv => kv.1 = tn')).map _ = _
  rw [find_writeFiles_ne _ _ _ _ h]
  rfl

theorem mem_writeFiles {files : List (String × TaskFile)} {tn : String}
    {t : TaskFile} {kv : String × TaskFile} (h : kv ∈ writeFiles files tn t) :
    kv = (tn, t) ∨ kv ∈ files := by
  induction files with
  | nil => simpa [writeFiles] using h
  | cons kv' rest ih =>
    obtain ⟨k, v⟩ := kv'
    rw [writeFiles] at h
    by_cases hk : k = tn
    · simp only [hk, if_true] at h
      rcases List.mem_cons.mp h with h | h
      · exact Or.inl h
      · exact Or.inr (List.mem_cons_of_mem _ h)
    · simp only [hk, if_false] at h
      rcases List.mem_cons.mp h with h | h
      · exact Or.inr (h ▸ List.mem_cons_self _ _)
      · rcases ih h with h | h
        · exact Or.inl h
        · exact Or.inr (List.mem_cons_of_mem _ h)

theorem mem_writeFiles_of_ne {files : List (String × TaskFile)} {tn : String}
    {t : TaskFile} {kv : String × TaskFile} (h : kv ∈ files)
    (hne : kv.1 ≠ tn) : kv ∈ writeFiles files tn t := by
  induction files with
  | nil => simp at h
  | cons kv' rest ih =>
    obtain ⟨k, v⟩ := kv'
    rw [writeFiles]
    rcases List.mem_cons.mp h with h | h
    · subst h
      by_cases hk : k = tn
      · exact absurd hk hne
      · simp [hk]
    · by_cases hk : k = tn
      · simp only [hk, if_true]
        exact List.mem_cons_of_mem _ h
      · simp only [hk, if_false]
        exact List.mem_cons_of_mem _ (ih h)

theorem readTask_mem {d : TasksDir} {tn : String} {t : TaskFile}
    (h : readTask d tn = some t) : (tn, t) ∈ d.files := by
  unfold readTask at h
  cases hf : d.files.find? (fun kv => kv.1 = tn) with
  | none => rw [hf] at h; exact Option.noConfusion h
  | some kv =>
    rw [hf] at h
    obtain ⟨k, v⟩ := kv
    have hm := List.mem_of_find?_eq_some hf
    have hp := List.find?_some hf
    have hk : k = tn := by simpa using hp
    have hv : v = t := Option.some.inj h
    subst hk
    subst hv
    exact hm

theorem readTask_isSome_of_mem {d : TasksDir} {kv : String × TaskFile}
    (h : kv ∈ d.files) : (readTask d kv.1).isSome := by
  unfold readTask
  simp only [Option.isSome_map', List.find?_isSome]
  exact ⟨kv, h, by simp⟩

/-! ## Sample data used by witnesses and counterexamples -/

def sampleTask : TaskFile :=
  { tNumber := "T001", title := "X", description := "d", status := "open",
    tags := ["claw-town"], blocking := [], blockedBy := [],
    assignedTo := none, comments := [], stage := none, owner := none,
    priority := none, completedAt := false }

def sampleDir : TasksDir :=
  { counter := some 2, files := [("T001", sampleTask)] }

/-! ## Claim theorems -/

/-- C1: starting from an empty `.tasks/` directory, `create --title "A"`
then `create --title "B"` (the two ID allocations serialized by the
counter lock) produce exactly the files `T001.json` and `T002.json`,
with distinct gap-free T-numbers, and `counter.json` holds
`{"next_id": 3}` afterwards. -/
theorem claim_C1_id_allocation :
    (cmdCreate { title := "B" } (cmdCreate { title := "A" } emptyDir)).files.map
        Prod.fst = ["T001", "T002"] ∧
    (readTask (cmdCreate { title := "B" } (cmdCreate { title := "A" } emptyDir))
        "T001").map (fun t => (t.tNumber, t.title)) = some ("T001", "A") ∧
    (readTask (cmdCreate { title := "B" } (cmdCreate { title := "A" } emptyDir))
        "T002").map (fun t => (t.tNumber, t.title)) = some ("T002", "B") ∧
    "T001" ≠ "T002" ∧
    (cmdCreate { title := "B" } (cmdCreate { title := "A" } emptyDir)).counter =
      some 3 :=
  ⟨rfl, rfl, rfl, by decide, rfl⟩

/-- C7: whenever the orchestrator status passed to the nudge decision is
`waiting_for_human`, `should_nudge` returns False, for every combination
of idle time, cooldown, nudge count, agents and tasks. -/
theorem claim_C7_never_nudge_waiting_for_human
    (idleTime nudgeInterval lastNudgeTime nudgeCooldown : ℚ)
    (nudgeCount : Int) (now : ℚ) (agents : List AgentView)
    (tasks : List TaskView) :
    shouldNudge idleTime nudgeInterval lastNudgeTime nudgeCooldown nudgeCount
      now agents tasks OrchestratorStatus.waitingForHuman = false := by
  rfl

/-- C5 counterexample: `update T001 --status bogus` does NOT surface a
validation error; it succeeds (no error, exit 0) and stores the
unrecognized status verbatim, changing the stored value.  The
`VALID_STATUSES` set in the source is never consulted. -/
theorem claim_C5_counterexample :
    normalizeStatus "bogus" ∉
      ["open", "in_progress", "closed", "blocked", "no_progress", "planned"] ∧
    sampleTask.status = "open" ∧
    (cmdUpdate "T001" { status := some "bogus" } sampleDir).2 = none ∧
    (readTask (cmdUpdate "T001" { status := some "bogus" } sampleDir).1
        "T001").map (fun t => t.status) = some "bogus" :=
  ⟨by decide, rfl, rfl, rfl⟩

/-- C5 (amended): `update T --status S` and `create --progress S` do not
validate S at all: any non-empty S is normalized (lowercased, hyphens
and spaces to underscores, the synonyms no_progress/planned mapped to
open) and stored unconditionally, and the command succeeds with no
error. -/
theorem claim_C5_amended (d : TasksDir) (rawTn tnc : String) (t : TaskFile)
    (s : String) (hs : s ≠ "") (hparse : parseTNumber rawTn = some tnc)
    (hread : readTask d tnc = some t) :
    cmdUpdate rawTn { status := some s } d =
      (writeTask d tnc { t with status := normalizeStatus s }, none) ∧
    ∀ (args : CreateArgs) (n : Nat) (d' : TasksDir), args.progress = some s →
      nextId d = (n, d') →
      (readTask (cmdCreate args d) (formatTNumber n)).map
        (fun tk => tk.status) = some (normalizeStatus s) := by
  constructor
  · simp only [cmdUpdate, hparse, hread]
    simp [applyUpdates, optTruthy, hs]
  · intro args n d' hp hnext
    simp only [cmdCreate, hnext, hp]
    simp only [optTruthy, hs, ne_eq, not_false_eq_true, decide_True, if_true,
      Option.getD_some]
    rw [readTask_writeTask_same]
    rfl

/-- C5 witness: the amended statement instantiated on a concrete store,
task and status string. -/
theorem claim_C5_amended_witness :
    cmdUpdate "T001" { status := some "In Progress" } sampleDir =
      (writeTask sampleDir "T001"
        { sampleTask with status := normalizeStatus "In Progress" }, none) ∧
    ∀ (args : CreateArgs) (n : Nat) (d' : TasksDir),
      args.progress = some "In Progress" →
      nextId sampleDir = (n, d') →
      (readTask (cmdCreate args sampleDir) (formatTNumber n)).map
        (fun tk => tk.status) = some (normalizeStatus "In Progress") :=
  claim_C5_amended sampleDir "T001" "T001" sampleTask "In Progress"
    (by decide) rfl rfl

/-- C6: any pane output whose last 800 characters contain a
TASK_COMPLETE variant case-insensitively is classified
`("completed", "completed")` by `detect_agent_status`, regardless of
lower-priority patterns also present — the completion rule is checked
first. -/
theorem claim_C6_completion_detection (pane : String)
    (h : completionSignals.any
      (fun signal => occursStr (strLower (strTakeRight pane 800)) signal) =
        true) :
    detectAgentStatus pane = (AgentStatus.completed, "completed") := by
  have hne : ¬ pane = "" := by
    intro he
    subst he
    exact absurd h (by decide)
  unfold detectAgentStatus
  rw [if_neg hne]
  simp only [h, if_true]

/-- C6 witness: a pane ending in `Task complete.` that also shows
numbered options, a question mark, a sleeping marker and a prompt glyph
is still classified completed. -/
theorem claim_C6_completion_detection_witness :
    detectAgentStatus "Choose 1. or 2.? sleeping ❯ Task complete." =
      (AgentStatus.completed, "completed") :=
  claim_C6_completion_detection "Choose 1. or 2.? sleeping ❯ Task complete."
    (by decide)

theorem rejectAllowed_sound {c s : String} (h : s ∈ rejectAllowed c) :
    s ∈ pipelineStages ∧ stageIdxOrNeg s < stageIdxOrNeg c := by
  unfold rejectAllowed at h
  split_ifs at h with h1 h2 h3 h4 h5 h6
  · subst h1
    rw [List.mem_singleton] at h
    subst h
    exact ⟨by decide, by decide⟩
  · subst h2
    rw [List.mem_singleton] at h
    subst h
    exact ⟨by decide, by decide⟩
  · subst h3
    rw [List.mem_singleton] at h
    subst h
    exact ⟨by decide, by decide⟩
  · subst h4
    rw [List.mem_singleton] at h
    subst h
    exact ⟨by decide, by decide⟩
  · subst h5
    simp only [List.mem_cons, List.not_mem_nil, or_false] at h
    rcases h with h | h <;> subst h <;> exact ⟨by decide, by decide⟩
  · subst h6
    rw [List.mem_singleton] at h
    subst h
    exact ⟨by decide, by decide⟩
  · simp at h

/-- C3: for a task at current stage c, `reject(T, s, reason)` succeeds
iff (c, s) is in the fixed reject allow-list (whose pairs all satisfy
index(s) < index(c) in the pipeline order); on success the task ends
with stage s, no owner, status open, and a new REJECTED-tagged comment
whose content contains the reason; otherwise the command errors
(exit 1). -/
theorem claim_C3_reject_legality (t : TaskFile) (c s reason : String)
    (hc : t.stage = some c) :
    ((cmdReject t s reason).isOk = true ↔
      (s ∈ rejectAllowed c ∧ stageIdxOrNeg s < stageIdxOrNeg c)) ∧
    (∀ t', cmdReject t s reason = .ok t' →
      t'.stage = some s ∧ t'.owner = none ∧ t'.status = "open" ∧
      ∃ cm, t'.comments = t.comments ++ [cm] ∧
        cm.prefixTag = some "REJECTED" ∧ ∃ pre, cm.content = pre ++ reason) := by
  by_cases hval : s ∈ pipelineStages
  · by_cases hallow : s ∈ rejectAllowed c
    · have hlt := (rejectAllowed_sound hallow).2
      have hnge : ¬ stageIdxOrNeg s ≥ stageIdxOrNeg c := not_le.mpr hlt
      have hok : cmdReject t s reason = .ok { t with
          owner := none
          stage := some s
          status := "open"
          comments := t.comments ++
            [{ id := t.comments.length + 1,
               content := "Rejected from " ++ c ++ " back to " ++ s ++
                 " (by " ++ strOrElse t.owner "unknown" ++ "): " ++ reason,
               prefixTag := some "REJECTED" }] } := by
        simp only [cmdReject, hc]
        rw [if_neg (not_not.mpr hval), if_neg (not_not.mpr hallow),
          if_neg hnge]
      constructor
      · exact ⟨fun _ => ⟨hallow, hlt⟩,
          fun _ => by rw [hok]; rfl⟩
      · intro t' ht'
        rw [hok] at ht'
        obtain rfl : _ = t' := Except.ok.inj ht'
        exact ⟨rfl, rfl, rfl, _, rfl, rfl, _, rfl⟩
    · have herr : cmdReject t s reason = .error "cannot reject to target" := by
        simp only [cmdReject, hc]
        rw [if_neg (not_not.mpr hval), if_pos hallow]
      constructor
      · rw [herr]
        constructor
        · intro hfalse
          exact absurd hfalse (by decide)
        · intro ⟨ha, _⟩
          exact absurd ha hallow
      · intro t' ht'
        rw [herr] at ht'
        exact Except.noConfusion ht'
  · have herr : cmdReject t s reason = .error "unknown stage" := by
      simp only [cmdReject, hc]
      rw [if_pos hval]
    constructor
    · rw [herr]
      constructor
      · intro hfalse
        exact absurd hfalse (by decide)
      · intro ⟨ha, _⟩
        exact absurd (rejectAllowed_sound ha).1 hval
    · intro t' ht'
      rw [herr] at ht'
      exact Except.noConfusion ht' 

def sampleCodeReview : TaskFile := { sampleTask with
  stage := some "code-review"
  owner := some "code-reviewer" }

def samplePmOwned : TaskFile := { sampleTask with
  stage := some "pm"
  owner := some "pm" }

def sampleAuditOwned : TaskFile := { sampleTask with
  stage := some "design-audit"
  owner := some "design-auditor" }

/-- C3 witness: the legality theorem instantiated at a concrete task in
code-review, for both the allowed target (intern) and the success
postconditions. -/
theorem claim_C3_reject_legality_witness :
    ((cmdReject sampleCodeReview "intern" "tests missing").isOk = true ↔
      ("intern" ∈ rejectAllowed "code-review" ∧
        stageIdxOrNeg "intern" < stageIdxOrNeg "code-review")) ∧
    (∀ t', cmdReject sampleCodeReview "intern" "tests missing" = .ok t' →
      t'.stage = some "intern" ∧ t'.owner = none ∧ t'.status = "open" ∧
      ∃ cm, t'.comments = sampleCodeReview.comments ++ [cm] ∧
        cm.prefixTag = some "REJECTED" ∧
        ∃ pre, cm.content = pre ++ "tests missing") :=
  claim_C3_reject_legality sampleCodeReview "code-review" "intern"
    "tests missing" rfl

/-- C4: `release` on a task with an owner at pipeline position i
(i+1 < 8) clears the owner and advances the stage to position i+1,
setting status closed exactly when the new stage is the final stage
`done` (open otherwise); so the stage values visited by releases from
the start of the pipeline are a prefix of the canonical order; and
`release` on a task with no owner fails. -/
theorem claim_C4_release_advances :
    (∀ t : TaskFile, t.owner = none → (cmdRelease t).isOk = false) ∧
    (∀ (t : TaskFile) (o : String) (i : Nat), i + 1 < pipelineStages.length →
      t.owner = some o → t.stage = some (pipelineStages.getD i "") →
      cmdRelease t = .ok { t with
        owner := none
        stage := some (pipelineStages.getD (i + 1) "")
        status := if pipelineStages.getD (i + 1) "" = "done"
          then "closed" else "open" }) ∧
    (∀ k, k ≤ 7 → stageChain k = List.take (k + 1) pipelineStages) := by
  refine ⟨?_, ?_, by decide⟩
  · intro t h
    simp [cmdRelease, h, Except.isOk, Except.toBool]
  · intro t o i hi ho hs
    have hi' : i < 7 := by
      simp only [pipelineStages, List.length_cons, List.length_nil] at hi
      omega
    interval_cases i <;>
      simp [cmdRelease, ho, hs, nextStage, stageIndex, stageIndexAux,
        strOrElse, pipelineStages]

/-- C4 witness: the release theorem instantiated at a no-owner task, an
owned task at the first stage, an owned task entering the final stage,
and the full stage chain. -/
theorem claim_C4_release_advances_witness :
    (cmdRelease sampleTask).isOk = false ∧
    cmdRelease samplePmOwned = .ok { samplePmOwned with
      owner := none
      stage := some (pipelineStages.getD 1 "")
      status := if pipelineStages.getD 1 "" = "done"
        then "closed" else "open" } ∧
    cmdRelease sampleAuditOwned = .ok { sampleAuditOwned with
      owner := none
      stage := some (pipelineStages.getD 7 "")
      status := if pipelineStages.getD 7 "" = "done"
        then "closed" else "open" } ∧
    stageChain 7 = List.take 8 pipelineStages :=
  ⟨claim_C4_release_advances.1 sampleTask rfl,
   claim_C4_release_advances.2.1 samplePmOwned "pm" 0 (by decide) rfl rfl,
   claim_C4_release_advances.2.1 sampleAuditOwned "design-auditor" 6
     (by decide) rfl rfl,
   claim_C4_release_advances.2.2 7 (by decide)⟩

/-! ## JDict lemmas and the migration fixed point -/

theorem dGet_eq_none_of_not_contains {d : JDict} {k : String}
    (h : dContains d k = false) : dGet d k = none := by
  unfold dContains at h
  cases hg : dGet d k with
  | none => rfl
  | some v => rw [hg] at h; exact Bool.noConfusion h

theorem dSetdefault_present {d : JDict} {k : String} {v : JVal}
    (h : dContains d k = true) : dSetdefault d k v = d := by
  unfold dSetdefault
  rw [h]
  rfl

theorem dErase_absent {d : JDict} {k : String}
    (h : dContains d k = false) : dErase d k = d := by
  induction d with
  | nil => rfl
  | cons kv rest ih =>
    obtain ⟨k', v'⟩ := kv
    unfold dContains dGet at h
    by_cases hk : k' = k
    · rw [if_pos hk] at h
      exact Bool.noConfusion h
    · rw [if_neg hk] at h
      rw [dErase, if_neg hk, ih h]

theorem dSet_get_same {d : JDict} {k : String} {v : JVal}
    (h : dGet d k = some v) : dSet d k v = d := by
  induction d with
  | nil => rw [dGet] at h; exact Option.noConfusion h
  | cons kv rest ih =>
    obtain ⟨k', v'⟩ := kv
    rw [dGet] at h
    by_cases hk : k' = k
    · rw [if_pos hk] at h
      rw [dSet, if_pos hk, hk, Option.some.inj h]
    · rw [if_neg hk] at h
      rw [dSet, if_neg hk, ih h]

theorem dSet_absent {d : JDict} {k : String} (v : JVal)
    (h : dContains d k = false) : dSet d k v = d ++ [(k, v)] := by
  induction d with
  | nil => rfl
  | cons kv rest ih =>
    obtain ⟨k', v'⟩ := kv
    unfold dContains dGet at h
    by_cases hk : k' = k
    · rw [if_pos hk] at h
      exact Bool.noConfusion h
    · rw [if_neg hk] at h
      rw [dSet, if_neg hk, ih h]
      rfl

theorem keysNodup_cons {k : String} {v : JVal} {rest : JDict}
    (h : keysNodup ((k, v) :: rest) = true) :
    (∀ kv ∈ rest, kv.1 ≠ k) ∧ keysNodup rest = true := by
  rw [keysNodup, Bool.and_eq_true, Bool.not_eq_true'] at h
  refine ⟨?_, h.2⟩
  intro kv hkv hkk
  have : (rest.any fun kv => decide (kv.1 = k)) = true :=
    List.any_eq_true.mpr ⟨kv, hkv, decide_eq_true hkk⟩
  rw [h.1] at this
  exact Bool.noConfusion this

theorem dContains_append (a b : JDict) (k : String) :
    dContains (a ++ b) k = (dContains a k || dContains b k) := by
  induction a with
  | nil => simp [dContains, dGet]
  | cons kv rest ih =>
    obtain ⟨k', v'⟩ := kv
    by_cases hk : k' = k
    · simp [dContains, dGet, hk]
    · simp only [List.cons_append, dContains, dGet, if_neg hk]
      exact ih

/-- An entry in the normalized schema passes untouched through
`_migrate_task_entry`. -/
theorem migrateEntry_normalized {e : JDict} (h : isNormalizedEntry e = true) :
    migrateEntry e = e := by
  unfold isNormalizedEntry at h
  simp only [Bool.and_eq_true, Bool.not_eq_true'] at h
  obtain ⟨⟨⟨⟨⟨⟨⟨⟨⟨⟨hw, hst⟩, has⟩, hag⟩, ht⟩, hb⟩, hs⟩, hn⟩, haw⟩, hcb⟩, hls⟩ := h
  simp only [migrateEntry, hw, hst, has, Bool.false_and, Bool.and_false,
    Bool.false_eq_true, if_false]
  rw [dErase_absent hag, dSetdefault_present ht, dSetdefault_present hb,
    dSetdefault_present hs, dSetdefault_present hn, dSetdefault_present haw,
    dSetdefault_present hcb, dSetdefault_present hls]

/-- Over a block of normalized T-keyed entries with unique keys disjoint
from the accumulator, the `known_tasks` migration loop is an append. -/
theorem migrateKnown_normalized (kts : JDict)
    (hall : ∀ kv ∈ kts, strStartsWith kv.1 "T" = true ∧
      ∃ e, kv.2 = .jobj e ∧ isNormalizedEntry e = true)
    (hnodup : keysNodup kts = true) :
    ∀ acc : JDict, (∀ kv ∈ kts, dContains acc kv.1 = false) →
      migrateKnown acc kts = acc ++ kts := by
  induction kts with
  | nil => intro acc _; simp [migrateKnown]
  | cons kv rest ih =>
    intro acc hdisj
    obtain ⟨k, v⟩ := kv
    obtain ⟨hT, e, hv, hne⟩ := hall (k, v) (List.mem_cons_self _ _)
    subst hv
    rw [migrateKnown, if_pos hT, migrateEntry_normalized hne]
    have hdk : dContains acc k = false := hdisj (k, .jobj e) (List.mem_cons_self _ _)
    rw [dSet_absent _ hdk]
    obtain ⟨hne', hnodup'⟩ := keysNodup_cons hnodup
    rw [ih (fun kv hkv => (hall kv (List.mem_cons_of_mem _ hkv)))
      hnodup' _ ?_]
    · simp
    · intro kv hkv
      rw [dContains_append, hdisj kv (List.mem_cons_of_mem _ hkv),
        Bool.false_or]
      unfold dContains dGet
      rw [if_neg (fun hh => hne' kv hkv hh.symm)]
      rfl

/-- The core fixed-point fact: `_migrate_data` leaves a normalized
document unchanged. -/
theorem migrateData_normalized {d : JDict} (h : isNormalized d = true) :
    migrateData d = d := by
  unfold isNormalized at h
  cases hget : dGet d "known_tasks" with
  | none => rw [hget] at h; exact Bool.noConfusion h
  | some v =>
    rw [hget] at h
    cases v with
    | jobj kts =>
      simp only [Bool.and_eq_true, Bool.not_eq_true'] at h
      obtain ⟨⟨⟨⟨⟨⟨⟨⟨⟨hnodup, hall⟩, hnotasks⟩, hproj⟩, hroot⟩, hwd⟩,
        hurl⟩, hpid⟩, hdag⟩, hpoll⟩ := h
      have hall' : ∀ kv ∈ kts, strStartsWith kv.1 "T" = true ∧
          ∃ e, kv.2 = .jobj e ∧ isNormalizedEntry e = true := by
        intro kv hkv
        have := List.all_eq_true.mp hall kv hkv
        rw [Bool.and_eq_true] at this
        refine ⟨this.1, ?_⟩
        cases hv : kv.2 with
        | jobj e => exact ⟨e, rfl, by rw [hv] at this; exact this.2⟩
        | jnull => rw [hv] at this; exact Bool.noConfusion this.2
        | jbool b => rw [hv] at this; exact Bool.noConfusion this.2
        | jint n => rw [hv] at this; exact Bool.noConfusion this.2
        | jstr s => rw [hv] at this; exact Bool.noConfusion this.2
        | jarr xs => rw [hv] at this; exact Bool.noConfusion this.2
      unfold migrateData
      rw [hget]
      simp only
      rw [migrateKnown_normalized kts hall' hnodup []
        (fun kv _ => rfl)]
      rw [dGet_eq_none_of_not_contains hnotasks]
      simp only [List.nil_append]
      rw [dSet_get_same hget, dSetdefault_present hproj,
        dSetdefault_present hroot, dSetdefault_present hwd,
        dSetdefault_present hurl, dSetdefault_present hpid,
        dSetdefault_present hdag, dSetdefault_present hpoll]
    | jnull => exact Bool.noConfusion h
    | jbool b => exact Bool.noConfusion h
    | jint n => exact Bool.noConfusion h
    | jstr s => exact Bool.noConfusion h
    | jarr xs => exact Bool.noConfusion h

/-- A legacy document whose `tasks` array entry carries a T-number that
does not start with `T`: the first load re-keys it under "123", the
second load drops it. -/
def legacyNonTDoc : JDict :=
  [("tasks", .jarr [.jobj [("t_number", .jstr "123")]])]

/-- The number of `known_tasks` entries of a document (used to exhibit
document inequality without comparing whole JSON trees). -/
def knownCount (d : JDict) : Nat :=
  match dGet d "known_tasks" with
  | some (.jobj l) => l.length
  | _ => 0

/-- C9 counterexample: one load-save cycle is NOT a fixed point for
every loadable document.  `save` writes the document verbatim, so
`load(save(load(D0))) = migrate(migrate(parse D0))`; for the legacy
document with a non-T `t_number` in its `tasks` array the first
migration keys the promoted entry under "123" and the second migration
drops it. -/
theorem claim_C9_counterexample :
    loadDoc (loadDoc legacyNonTDoc) ≠ loadDoc legacyNonTDoc ∧
    knownCount (loadDoc legacyNonTDoc) = 1 ∧
    knownCount (loadDoc (loadDoc legacyNonTDoc)) = 0 := by
  refine ⟨?_, rfl, rfl⟩
  intro h
  have h2 := congrArg knownCount h
  rw [show knownCount (loadDoc (loadDoc legacyNonTDoc)) = 0 from rfl,
    show knownCount (loadDoc legacyNonTDoc) = 1 from rfl] at h2
  exact absurd h2 (by decide)

/-- C9 (amended): migrating an already-normalized document is a no-op,
and one load-save cycle is a fixed point for every document whose
loaded form is normalized (in particular, whose known_tasks keys all
start with T); a legacy `tasks`-array entry carrying a non-T
`t_number`/`task_number` string breaks the fixed point, as the
counterexample shows. -/
theorem claim_C9_migration_idempotent (d : JDict) :
    (isNormalized d = true → migrateData d = d) ∧
    (isNormalized (loadDoc d) = true → loadDoc (loadDoc d) = loadDoc d) :=
  ⟨fun h => migrateData_normalized h,
   fun h => migrateData_normalized h⟩

/-- A concrete document in the normalized schema. -/
def normalDoc : JDict :=
  [("project", .jstr "p"), ("root_task", .jnull), ("working_dir", .jnull),
   ("gsd_url", .jnull), ("gsd_project_id", .jnull),
   ("known_tasks", .jobj
     [("T001", .jobj
       [("title", .jstr "Research"), ("blocked_by", .jarr []),
        ("status", .jstr "pending"), ("name", .jnull),
        ("agent_window", .jnull), ("created_by", .jstr "claw-town"),
        ("last_synced", .jnull)])]),
   ("last_dag_walk", .jnull), ("last_gsd_poll", .jnull)]

/-- C9 witness: the idempotence theorem instantiated at a concrete
normalized document. -/
theorem claim_C9_migration_idempotent_witness :
    migrateData normalDoc = normalDoc ∧
    loadDoc (loadDoc normalDoc) = loadDoc normalDoc :=
  ⟨(claim_C9_migration_idempotent normalDoc).1 rfl,
   (claim_C9_migration_idempotent normalDoc).2 rfl⟩

/-- C10: `add_task` for a T-number already present in `known_tasks` is
a no-op on the document held under the lock: the whole document —
the existing entry's fields included — is returned unchanged; at the
file level the same holds for any normalized stored document (the
lock-scoped load migrates legacy documents before `add_task` runs). -/
theorem claim_C10_add_task_existing (data kts : JDict) (tNumber : String)
    (title : Option String) (status : String) (blockedBy : List String)
    (name agentWindow : Option String) (createdBy : String)
    (agent window state agentState : Option String)
    (hget : dGet data "known_tasks" = some (.jobj kts))
    (hmem : dContains kts tNumber = true) :
    addTaskData data tNumber title status blockedBy name agentWindow
      createdBy agent window state agentState = data ∧
    (isNormalized data = true →
      addTaskOnFile data tNumber title status blockedBy name agentWindow
        createdBy agent window state agentState = data) := by
  have hcont : dContains data "known_tasks" = true := by
    unfold dContains
    rw [hget]
    rfl
  have hdata : addTaskData data tNumber title status blockedBy name
      agentWindow createdBy agent window state agentState = data := by
    unfold addTaskData
    rw [dSetdefault_present hcont]
    simp only [hget, hmem, if_true]
  refine ⟨hdata, fun hnorm => ?_⟩
  unfold addTaskOnFile
  rw [migrateData_normalized hnorm, hdata]

/-- C10 witness: adding `T001`, which the normalized document already
tracks, with clobbering field values, leaves the document unchanged. -/
theorem claim_C10_add_task_existing_witness :
    addTaskData normalDoc "T001" (some "Other title") "working" ["T009"]
      (some "other") (some "win:1") "human" none none none none =
      normalDoc ∧
    (isNormalized normalDoc = true →
      addTaskOnFile normalDoc "T001" (some "Other title") "working" ["T009"]
        (some "other") (some "win:1") "human" none none none none =
        normalDoc) :=
  claim_C10_add_task_existing normalDoc
    [("T001", .jobj
      [("title", .jstr "Research"), ("blocked_by", .jarr []),
       ("status", .jstr "pending"), ("name", .jnull),
       ("agent_window", .jnull), ("created_by", .jstr "claw-town"),
       ("last_synced", .jnull)])]
    "T001" (some "Other title") "working" ["T009"] (some "other")
    (some "win:1") "human" none none none none rfl rfl

/-! ## Outbox lemmas -/

theorem mem_insertByName {x m : OutMsg} {l : List OutMsg} :
    x ∈ insertByName m l ↔ x = m ∨ x ∈ l := by
  induction l with
  | nil => simp [insertByName]
  | cons y ys ih =>
    rw [insertByName]
    by_cases hle : m.name ≤ y.name
    · simp [hle]
    · simp only [hle, if_false, List.mem_cons, ih]
      tauto

theorem mem_sortByName {x : OutMsg} {l : List OutMsg} :
    x ∈ sortByName l ↔ x ∈ l := by
  induction l with
  | nil => simp [sortByName]
  | cons y ys ih =>
    rw [sortByName, List.foldr]
    rw [mem_insertByName]
    simp only [List.mem_cons]
    rw [show List.foldr insertByName [] ys = sortByName ys from rfl, ih]

/-- A parsed message whose age exceeds the TTL never survives the
expiry sweep. -/
theorem expirePass_not_still {now : ℚ} {m : OutMsg}
    {tg ct src : String} {q : ℚ} {pr : Int}
    (hp : m.payload = .parsed tg ct src q pr)
    (hage : msgAge now q m.mtime > outboxTtl) :
    ∀ l : List OutMsg, m ∉ (expirePass now l).1 := by
  intro l
  induction l with
  | nil => simp [expirePass]
  | cons x rest ih =>
    rw [expirePass]
    cases hx : x.payload with
    | malformed =>
      simp only
      intro hmem
      rcases List.mem_cons.mp hmem with hmx | hmx
      · subst hmx; rw [hp] at hx; exact MsgPayload.noConfusion hx
      · exact ih hmx
    | parsed tg' ct' src' q' pr' =>
      simp only
      by_cases hcond : msgAge now q' x.mtime > outboxTtl
      · simp only [hcond, if_true]
        exact ih
      · simp only [hcond, if_false]
        intro hmem
        rcases List.mem_cons.mp hmem with hmx | hmx
        · subst hmx
          rw [hp] at hx
          injection hx with h1 h2 h3 h4 h5
          exact hcond (h4 ▸ hage)
        · exact ih hmx

/-- A parsed over-TTL message in the listing is moved to the expired
output of the sweep, with a failure ack recorded for its filename. -/
theorem expirePass_expires {now : ℚ} {m : OutMsg}
    {tg ct src : String} {q : ℚ} {pr : Int}
    (hp : m.payload = .parsed tg ct src q pr)
    (hage : msgAge now q m.mtime > outboxTtl) :
    ∀ l : List OutMsg, m ∈ l →
      m ∈ (expirePass now l).2.1 ∧ m.name ∈ (expirePass now l).2.2 := by
  intro l
  induction l with
  | nil => intro hmem; simp at hmem
  | cons x rest ih =>
    intro hmem
    rw [expirePass]
    rcases List.mem_cons.mp hmem with hmx | hmx
    · subst hmx
      rw [hp]
      simp only [hage, if_true]
      exact ⟨List.mem_cons_self _ _, List.mem_cons_self _ _⟩
    · cases hx : x.payload with
      | malformed =>
        simp only
        exact ih hmx
      | parsed tg' ct' src' q' pr' =>
        simp only
        by_cases hcond : msgAge now q' x.mtime > outboxTtl
        · simp only [hcond, if_true]
          exact ⟨List.mem_cons_of_mem _ (ih hmx).1,
            List.mem_cons_of_mem _ (ih hmx).2⟩
        · simp only [hcond, if_false]
          exact ih hmx

/-- The sweep's survivors come from the listing. -/
theorem expirePass_still_subset {now : ℚ} :
    ∀ l : List OutMsg, ∀ x ∈ (expirePass now l).1, x ∈ l := by
  intro l
  induction l with
  | nil => simp [expirePass]
  | cons y rest ih =>
    intro x hx
    rw [expirePass] at hx
    cases hy : y.payload with
    | malformed =>
      rw [hy] at hx
      simp only at hx
      rcases List.mem_cons.mp hx with h | h
      · exact h ▸ List.mem_cons_self _ _
      · exact List.mem_cons_of_mem _ (ih x h)
    | parsed tg ct src q pr =>
      rw [hy] at hx
      simp only at hx
      by_cases hcond : msgAge now q y.mtime > outboxTtl
      · simp only [hcond, if_true] at hx
        exact List.mem_cons_of_mem _ (ih x hx)
      · simp only [hcond, if_false] at hx
        rcases List.mem_cons.mp hx with h | h
        · exact h ▸ List.mem_cons_self _ _
        · exact List.mem_cons_of_mem _ (ih x h)

/-- Case analysis of the message-processing step: the sent partition is
unchanged or extended by the head pending message. -/
theorem processHead_sent_cases (sendOk : String → Bool) (box1 : Outbox) :
    (processHead sendOk box1).sent = box1.sent ∨
    ∃ hd, (processHead sendOk box1).sent = box1.sent ++ [hd] ∧
      hd ∈ box1.pending := by
  obtain ⟨p, s, e, da, fa⟩ := box1
  cases p with
  | nil => exact Or.inl rfl
  | cons m rest =>
    simp only [processHead]
    cases m.payload with
    | malformed => exact Or.inl rfl
    | parsed tg ct src q pr =>
      simp only
      by_cases hv : tg ≠ "" ∧ ct ≠ ""
      · rw [if_pos hv]
        by_cases hsend : sendOk m.name = true
        · rw [if_pos hsend]
          exact Or.inr ⟨m, rfl, List.mem_cons_self _ _⟩
        · rw [if_neg hsend]
          exact Or.inl rfl
      · rw [if_neg hv]
        exact Or.inl rfl

/-- The message-processing step never removes expired entries. -/
theorem processHead_expired_mono (sendOk : String → Bool) (box1 : Outbox)
    {x : OutMsg} (hx : x ∈ box1.expired) :
    x ∈ (processHead sendOk box1).expired := by
  obtain ⟨p, s, e, da, fa⟩ := box1
  cases p with
  | nil => exact hx
  | cons m rest =>
    simp only [processHead]
    cases m.payload with
    | malformed => exact List.mem_append_left _ hx
    | parsed tg ct src q pr =>
      simp only
      by_cases hv : tg ≠ "" ∧ ct ≠ ""
      · rw [if_pos hv]
        by_cases hsend : sendOk m.name = true
        · rw [if_pos hsend]; exact hx
        · rw [if_neg hsend]; exact hx
      · rw [if_neg hv]
        exact List.mem_append_left _ hx

/-- The message-processing step records no failure acks. -/
theorem processHead_failAcks (sendOk : String → Bool) (box1 : Outbox) :
    (processHead sendOk box1).failAcks = box1.failAcks := by
  obtain ⟨p, s, e, da, fa⟩ := box1
  cases p with
  | nil => rfl
  | cons m rest =>
    simp only [processHead]
    cases m.payload with
    | malformed => rfl
    | parsed tg ct src q pr =>
      simp only
      by_cases hv : tg ≠ "" ∧ ct ≠ ""
      · rw [if_pos hv]
        by_cases hsend : sendOk m.name = true
        · rw [if_pos hsend]
        · rw [if_neg hsend]
      · rw [if_neg hv]

/-- After the message-processing step, pending messages all come from
the step's input. -/
theorem processHead_pending_subset (sendOk : String → Bool) (box1 : Outbox)
    {x : OutMsg} (hx : x ∈ (processHead sendOk box1).pending) :
    x ∈ box1.pending := by
  obtain ⟨p, s, e, da, fa⟩ := box1
  cases p with
  | nil => exact hx
  | cons m rest =>
    simp only [processHead] at hx
    cases hpm : m.payload with
    | malformed =>
      rw [hpm] at hx
      simp only at hx
      exact List.mem_cons_of_mem _ hx
    | parsed tg ct src q pr =>
      rw [hpm] at hx
      simp only at hx
      by_cases hv : tg ≠ "" ∧ ct ≠ ""
      · rw [if_pos hv] at hx
        by_cases hsend : sendOk m.name = true
        · rw [if_pos hsend] at hx
          exact List.mem_cons_of_mem _ hx
        · rw [if_neg hsend] at hx
          exact hx
      · rw [if_neg hv] at hx
        exact List.mem_cons_of_mem _ hx

def corruptMsg : OutMsg :=
  { name := "3_20260101_120000_000000_event.json", payload := .malformed,
    mtime := 0 }

def corruptBox : Outbox :=
  { pending := [corruptMsg], sent := [], expired := [], delivAcks := [],
    failAcks := [] }

/-- C8 counterexample: a pending message with malformed JSON is moved to
`expired/` by the drain tick with NO failure ack recorded (the source
only logs), so neither "moved to sent/ with a delivery ack" nor "moved
to expired/ with a matching failure ack" ever occurs for it: once in
`expired/` no later tick touches it. -/
theorem claim_C8_counterexample :
    corruptMsg ∈ (outboxTick 100 (fun _ => true) corruptBox).expired ∧
    (outboxTick 100 (fun _ => true) corruptBox).pending = [] ∧
    (outboxTick 100 (fun _ => true) corruptBox).failAcks = [] ∧
    (outboxTick 100 (fun _ => true) corruptBox).delivAcks = [] ∧
    ¬ ackBalance (outboxTick 100 (fun _ => true) corruptBox) corruptMsg := by
  have hexp : (outboxTick 100 (fun _ => true) corruptBox).expired =
      [corruptMsg] := rfl
  have hfa : (outboxTick 100 (fun _ => true) corruptBox).failAcks = [] := rfl
  have hda : (outboxTick 100 (fun _ => true) corruptBox).delivAcks = [] := rfl
  refine ⟨?_, rfl, hfa, hda, ?_⟩
  · rw [hexp]
    exact List.mem_cons_self _ _
  · rintro (⟨_, hn⟩ | ⟨_, hn⟩)
    · rw [hda] at hn
      exact List.not_mem_nil _ hn
    · rw [hfa] at hn
      exact List.not_mem_nil _ hn

/-- C8 (amended): under drain ticks each pending message is dispatched
to exactly one destination — delivered messages move to `sent/` with a
matching delivery ack; messages whose age exceeds the TTL move to
`expired/` with a matching failure ack; messages with malformed JSON or
with empty target or content move to `expired/` with NO ack; a message
whose send fails stays in `pending/` (retried until its TTL expires). -/
theorem claim_C8_amended (now : ℚ) (sendOk : String → Bool) (box : Outbox)
    (m : OutMsg) :
    (∀ tg ct src q pr, box.pending = [m] →
      m.payload = .parsed tg ct src q pr → tg ≠ "" → ct ≠ "" →
      ¬ msgAge now q m.mtime > outboxTtl → sendOk m.name = true →
      outboxTick now sendOk box = { box with
        pending := []
        sent := box.sent ++ [m]
        delivAcks := box.delivAcks ++ [m.name] }) ∧
    (∀ tg ct src q pr, box.pending = [m] →
      m.payload = .parsed tg ct src q pr → tg ≠ "" → ct ≠ "" →
      ¬ msgAge now q m.mtime > outboxTtl → sendOk m.name = false →
      outboxTick now sendOk box = box) ∧
    (box.pending = [m] → m.payload = .malformed →
      outboxTick now sendOk box = { box with
        pending := []
        expired := box.expired ++ [m] }) ∧
    (∀ tg ct src q pr, box.pending = [m] →
      m.payload = .parsed tg ct src q pr → ¬ (tg ≠ "" ∧ ct ≠ "") →
      ¬ msgAge now q m.mtime > outboxTtl →
      outboxTick now sendOk box = { box with
        pending := []
        expired := box.expired ++ [m] }) ∧
    (∀ tg ct src q pr, m ∈ box.pending →
      m.payload = .parsed tg ct src q pr →
      msgAge now q m.mtime > outboxTtl → m ∉ box.sent →
      m ∈ (outboxTick now sendOk box).expired ∧
      m.name ∈ (outboxTick now sendOk box).failAcks ∧
      m ∉ (outboxTick now sendOk box).pending ∧
      m ∉ (outboxTick now sendOk box).sent) := by
  obtain ⟨p, s, e, da, fa⟩ := box
  refine ⟨?_, ?_, ?_, ?_, ?_⟩
  · intro tg ct src q pr hpend hp htg hct hage hsend
    simp only at hpend
    subst hpend
    simp [outboxTick, processHead, sortByName, insertByName, expirePass,
      hp, hage, htg, hct, hsend]
  · intro tg ct src q pr hpend hp htg hct hage hsend
    simp only at hpend
    subst hpend
    simp [outboxTick, processHead, sortByName, insertByName, expirePass,
      hp, hage, htg, hct, hsend]
  · intro hpend hp
    simp only at hpend
    subst hpend
    simp [outboxTick, processHead, sortByName, insertByName, expirePass, hp]
  · intro tg ct src q pr hpend hp hinvalid hage
    simp only at hpend
    subst hpend
    simp [outboxTick, processHead, sortByName, insertByName, expirePass,
      hp, hage, hinvalid]
  · intro tg ct src q pr hmem hp hage hnotsent
    simp only at hmem hnotsent
    have hmem' : m ∈ sortByName p := mem_sortByName.mpr hmem
    have hexp := expirePass_expires hp hage (sortByName p) hmem'
    have hnst := expirePass_not_still hp hage (sortByName p)
    have htick : outboxTick now sendOk
        { pending := p, sent := s, expired := e, delivAcks := da,
          failAcks := fa } =
        processHead sendOk
          { pending := (expirePass now (sortByName p)).1
            sent := s
            expired := e ++ (expirePass now (sortByName p)).2.1
            delivAcks := da
            failAcks := fa ++ (expirePass now (sortByName p)).2.2 } := rfl
    rw [htick]
    refine ⟨?_, ?_, ?_, ?_⟩
    · exact processHead_expired_mono sendOk _
        (List.mem_append_right _ hexp.1)
    · rw [processHead_failAcks]
      exact List.mem_append_right _ hexp.2
    · intro hin
      exact hnst (processHead_pending_subset sendOk _ hin)
    · intro hin
      rcases processHead_sent_cases sendOk
          { pending := (expirePass now (sortByName p)).1
            sent := s
            expired := e ++ (expirePass now (sortByName p)).2.1
            delivAcks := da
            failAcks := fa ++ (expirePass now (sortByName p)).2.2 } with
        hcase | ⟨hd, hcase, hhd⟩
      · rw [hcase] at hin
        exact hnotsent hin
      · rw [hcase] at hin
        rcases List.mem_append.mp hin with hin | hin
        · exact hnotsent hin
        · rw [List.mem_singleton] at hin
          subst hin
          exact hnst hhd

def deliverableMsg : OutMsg :=
  { name := "2_20260101_120000_000000_nudge.json",
    payload := .parsed "claw-town:orchestrator" "hello" "nudge" 90 2,
    mtime := 90 }

def deliverableBox : Outbox :=
  { pending := [deliverableMsg], sent := [], expired := [], delivAcks := [],
    failAcks := [] }

def staleBox : Outbox :=
  { pending := [deliverableMsg], sent := [], expired := [], delivAcks := [],
    failAcks := [] }

/-- C8 witness: the amended dispatch theorem instantiated on a concrete
deliverable message (fresh at time 100, expired at time 1000). -/
theorem claim_C8_amended_witness :
    (outboxTick 100 (fun _ => true) deliverableBox = { deliverableBox with
      pending := []
      sent := deliverableBox.sent ++ [deliverableMsg]
      delivAcks := deliverableBox.delivAcks ++ [deliverableMsg.name] }) ∧
    (deliverableMsg ∈ (outboxTick 1000 (fun _ => true) staleBox).expired ∧
      deliverableMsg.name ∈ (outboxTick 1000 (fun _ => true) staleBox).failAcks ∧
      deliverableMsg ∉ (outboxTick 1000 (fun _ => true) staleBox).pending ∧
      deliverableMsg ∉ (outboxTick 1000 (fun _ => true) staleBox).sent) :=
  ⟨(claim_C8_amended 100 (fun _ => true) deliverableBox deliverableMsg).1
      "claw-town:orchestrator" "hello" "nudge" 90 2 rfl rfl
      (by decide) (by decide)
      (by norm_num [msgAge, outboxTtl, deliverableMsg]) rfl,
   (claim_C8_amended 1000 (fun _ => true) staleBox
      deliverableMsg).2.2.2.2
      "claw-town:orchestrator" "hello" "nudge" 90 2
      (List.mem_cons_self _ _) rfl
      (by norm_num [msgAge, outboxTtl, deliverableMsg])
      (List.not_mem_nil _)⟩

/-! ## Link symmetry: ghost decoding of T-numbers and the store
invariant -/

/-- Ghost decoder (proof device, not part of the source model): the
number encoded by the digits of a T-number string. -/
def ghostNum (s : String) : Nat :=
  decValRev ((s.toList.filter Char.isDigit).reverse)

theorem decValRev_append (xs ys : List Char) :
    decValRev (xs ++ ys) = decValRev xs + 10 ^ xs.length * decValRev ys := by
  induction xs with
  | nil => simp [decValRev]
  | cons c cs ih =>
    have ih' : decValRev (cs.append ys) =
        decValRev cs + 10 ^ cs.length * decValRev ys := ih
    simp only [List.cons_append, decValRev, ih, ih', List.length_cons]
    ring

theorem ghostNum_formatTNumber (n : Nat) : ghostNum (formatTNumber n) = n := by
  by_cases h0 : n = 0
  · subst h0; rfl
  · have hT : Char.isDigit 'T' = false := rfl
    have hz : Char.isDigit '0' = true := rfl
    have hrevdig : ∀ c ∈ (natDigitsRev n).reverse, Char.isDigit c = true :=
      fun c hc => natDigitsRev_all_digits n c (List.mem_reverse.mp hc)
    have hzero : ('0'.toNat - 48 : Nat) = 0 := rfl
    have hself :
        List.filter Char.isDigit ((natDigitsRev n).reverse) =
          (natDigitsRev n).reverse := List.filter_eq_self.mpr hrevdig
    unfold ghostNum formatTNumber natToDec
    rw [if_neg h0]
    by_cases h10 : n < 10
    · rw [if_pos h10]
      rw [show ("T" ++ ("00" ++ (⟨(natDigitsRev n).reverse⟩ : String))).toList
          = 'T' :: '0' :: '0' :: (natDigitsRev n).reverse from rfl]
      rw [List.filter_cons_of_neg (by simp [hT]),
        List.filter_cons_of_pos (by simp [hz]),
        List.filter_cons_of_pos (by simp [hz]), hself]
      rw [List.reverse_cons, List.reverse_cons, List.reverse_reverse,
        List.append_assoc, decValRev_append, decValRev_natDigitsRev]
      norm_num [decValRev, hzero]
    · rw [if_neg h10]
      by_cases h100 : n < 100
      · rw [if_pos h100]
        rw [show ("T" ++ ("0" ++ (⟨(natDigitsRev n).reverse⟩ : String))).toList
            = 'T' :: '0' :: (natDigitsRev n).reverse from rfl]
        rw [List.filter_cons_of_neg (by simp [hT]),
          List.filter_cons_of_pos (by simp [hz]), hself]
        rw [List.reverse_cons, List.reverse_reverse, decValRev_append,
          decValRev_natDigitsRev]
        norm_num [decValRev, hzero]
      · rw [if_neg h100]
        rw [show ("T" ++ (⟨(natDigitsRev n).reverse⟩ : String)).toList
            = 'T' :: (natDigitsRev n).reverse from rfl]
        rw [List.filter_cons_of_neg (by simp [hT]), hself]
        rw [List.reverse_reverse, decValRev_natDigitsRev]

/-- The value the next `create` will allocate. -/
def nextVal (d : TasksDir) : Nat :=
  d.counter.getD 1

/-- The induction invariant for the link-symmetry claim: symmetry
itself, closedness of the link references, and boundedness of the
stored T-numbers below the counter. -/
def StoreInv (d : TasksDir) : Prop :=
  linkSymm d ∧
  (∀ kv ∈ d.files,
    (∀ b ∈ kv.2.blocking, ∃ t, readTask d b = some t) ∧
    (∀ b ∈ kv.2.blockedBy, ∃ t, readTask d b = some t)) ∧
  (∀ kv ∈ d.files, ghostNum kv.1 < nextVal d)

theorem storeInv_empty : StoreInv emptyDir := by
  refine ⟨?_, ?_, ?_⟩
  · intro a b ta tb ha _
    exact Option.noConfusion ha
  · intro kv hkv
    exact absurd hkv (List.not_mem_nil _)
  · intro kv hkv
    exact absurd hkv (List.not_mem_nil _)

theorem mem_addIfAbsent {x y : String} {l : List String} :
    x ∈ (if y ∈ l then l else l ++ [y]) ↔ x ∈ l ∨ x = y := by
  by_cases hy : y ∈ l
  · rw [if_pos hy]
    constructor
    · exact Or.inl
    · rintro (h | h)
      · exact h
      · exact h ▸ hy
  · rw [if_neg hy]
    simp [List.mem_append]

theorem readTask_write_isSome {d : TasksDir} {x : String} (tn : String)
    (t : TaskFile) (hx : ∃ t0, readTask d x = some t0) :
    ∃ t1, readTask (writeTask d tn t) x = some t1 := by
  by_cases hxe : x = tn
  · subst hxe
    exact ⟨t, readTask_writeTask_same d x t⟩
  · obtain ⟨t0, h0⟩ := hx
    exact ⟨t0, by rw [readTask_writeTask_ne d tn t x hxe, h0]⟩

/-- Counters are untouched by task writes. -/
theorem nextVal_writeTask (d : TasksDir) (tn : String) (t : TaskFile) :
    nextVal (writeTask d tn t) = nextVal d := rfl

/-- Writing an existing task back with unchanged link lists preserves
the invariant. -/
theorem inv_write_links_preserved (d : TasksDir) (tn : String)
    (t0 t1 : TaskFile) (hread : readTask d tn = some t0)
    (hbl : t1.blocking = t0.blocking) (hbb : t1.blockedBy = t0.blockedBy)
    (h : StoreInv d) : StoreInv (writeTask d tn t1) := by
  obtain ⟨hsym, hrefs, hbound⟩ := h
  refine ⟨?_, ?_, ?_⟩
  · intro a b ta tb hra hrb
    by_cases hae : a = tn <;> by_cases hbe : b = tn
    · rw [hae] at hra
      rw [hbe] at hrb
      rw [readTask_writeTask_same] at hra hrb
      obtain rfl := Option.some.inj hra
      obtain rfl := Option.some.inj hrb
      rw [hbl, hbb, hae, hbe]
      exact hsym tn tn t0 t0 hread hread
    · rw [hae] at hra
      rw [readTask_writeTask_same] at hra
      rw [readTask_writeTask_ne _ _ _ _ hbe] at hrb
      obtain rfl := Option.some.inj hra
      rw [hbl, hae]
      exact hsym tn b t0 tb hread hrb
    · rw [hbe] at hrb
      rw [readTask_writeTask_same] at hrb
      rw [readTask_writeTask_ne _ _ _ _ hae] at hra
      obtain rfl := Option.some.inj hrb
      rw [hbb, hbe]
      exact hsym a tn ta t0 hra hread
    · rw [readTask_writeTask_ne _ _ _ _ hae] at hra
      rw [readTask_writeTask_ne _ _ _ _ hbe] at hrb
      exact hsym a b ta tb hra hrb
  · intro kv hkv
    rcases mem_writeFiles hkv with hkv | hkv
    · subst hkv
      have hrefs0 := hrefs (tn, t0) (readTask_mem hread)
      refine ⟨?_, ?_⟩
      · intro b hb
        rw [hbl] at hb
        exact readTask_write_isSome tn t1 (hrefs0.1 b hb)
      · intro b hb
        rw [hbb] at hb
        exact readTask_write_isSome tn t1 (hrefs0.2 b hb)
    · have hrefs0 := hrefs kv hkv
      exact ⟨fun b hb => readTask_write_isSome tn t1 (hrefs0.1 b hb),
        fun b hb => readTask_write_isSome tn t1 (hrefs0.2 b hb)⟩
  · intro kv hkv
    rw [nextVal_writeTask]
    rcases mem_writeFiles hkv with hkv | hkv
    · subst hkv
      exact hbound (tn, t0) (readTask_mem hread)
    · exact hbound kv hkv

/-- `cmd_create` writes a fresh task with empty link lists under the key
allocated by the counter, and bumps the counter. -/
theorem cmdCreate_eq (args : CreateArgs) (d : TasksDir) :
    ∃ task : TaskFile,
      cmdCreate args d =
        { counter := some (nextVal d + 1)
          files := writeFiles d.files (formatTNumber (nextVal d)) task } ∧
      task.blocking = [] ∧ task.blockedBy = [] := by
  obtain ⟨c, files⟩ := d
  cases c with
  | none =>
    refine ⟨_, rfl, ?_, ?_⟩
    · by_cases hp : optTruthy args.progress = true <;> simp [hp]
    · by_cases hp : optTruthy args.progress = true <;> simp [hp]
  | some k =>
    refine ⟨_, rfl, ?_, ?_⟩
    · by_cases hp : optTruthy args.progress = true <;> simp [hp]
    · by_cases hp : optTruthy args.progress = true <;> simp [hp]

/-- Freshness: the key about to be allocated is not a file of the
store. -/
theorem fresh_key {d : TasksDir} (hbound : ∀ kv ∈ d.files,
    ghostNum kv.1 < nextVal d) :
    readTask d (formatTNumber (nextVal d)) = none := by
  cases hr : readTask d (formatTNumber (nextVal d)) with
  | none => rfl
  | some t =>
    have hmem := readTask_mem hr
    have := hbound _ hmem
    rw [ghostNum_formatTNumber] at this
    omega

theorem inv_create (args : CreateArgs) (d : TasksDir) (h : StoreInv d) :
    StoreInv (cmdCreate args d) := by
  obtain ⟨hsym, hrefs, hbound⟩ := h
  obtain ⟨task, heq, hbl, hbb⟩ := cmdCreate_eq args d
  rw [heq]
  have hfresh : readTask d (formatTNumber (nextVal d)) = none :=
    fresh_key hbound
  have hw : ∀ x, readTask
      ({ counter := some (nextVal d + 1),
         files := writeFiles d.files (formatTNumber (nextVal d)) task } :
        TasksDir) x =
      readTask (writeTask d (formatTNumber (nextVal d)) task) x :=
    fun _ => rfl
  set tn := formatTNumber (nextVal d) with htn
  refine ⟨?_, ?_, ?_⟩
  · intro a b ta tb hra hrb
    rw [hw] at hra hrb
    by_cases hae : a = tn <;> by_cases hbe : b = tn
    · rw [hae] at hra
      rw [hbe] at hrb
      rw [readTask_writeTask_same] at hra hrb
      obtain rfl := Option.some.inj hra
      obtain rfl := Option.some.inj hrb
      rw [hbl, hbb]
      simp
    · rw [hae] at hra
      rw [readTask_writeTask_same] at hra
      rw [readTask_writeTask_ne _ _ _ _ hbe] at hrb
      obtain rfl := Option.some.inj hra
      rw [hbl, hae]
      constructor
      · intro hfalse
        exact absurd hfalse (List.not_mem_nil b)
      · intro hmem
        obtain ⟨t', ht'⟩ := (hrefs (b, tb) (readTask_mem hrb)).2 tn hmem
        rw [hfresh] at ht'
        exact Option.noConfusion ht'
    · rw [hbe] at hrb
      rw [readTask_writeTask_same] at hrb
      rw [readTask_writeTask_ne _ _ _ _ hae] at hra
      obtain rfl := Option.some.inj hrb
      rw [hbb, hbe]
      constructor
      · intro hmem
        obtain ⟨t', ht'⟩ := (hrefs (a, ta) (readTask_mem hra)).1 tn hmem
        rw [hfresh] at ht'
        exact Option.noConfusion ht'
      · intro hfalse
        exact absurd hfalse (List.not_mem_nil a)
    · rw [readTask_writeTask_ne _ _ _ _ hae] at hra
      rw [readTask_writeTask_ne _ _ _ _ hbe] at hrb
      exact hsym a b ta tb hra hrb
  · intro kv hkv
    simp only at hkv
    rcases mem_writeFiles hkv with hkv | hkv
    · subst hkv
      rw [hbl, hbb]
      exact ⟨fun b hb => absurd hb (List.not_mem_nil b),
        fun b hb => absurd hb (List.not_mem_nil b)⟩
    · have hrefs0 := hrefs kv hkv
      constructor
      · intro b hb
        obtain ⟨t', ht'⟩ := hrefs0.1 b hb
        rw [hw]
        exact readTask_write_isSome tn task ⟨t', ht'⟩
      · intro b hb
        obtain ⟨t', ht'⟩ := hrefs0.2 b hb
        rw [hw]
        exact readTask_write_isSome tn task ⟨t', ht'⟩
  · intro kv hkv
    simp only at hkv
    have hnv : nextVal
        ({ counter := some (nextVal d + 1),
           files := writeFiles d.files tn task } : TasksDir) =
        nextVal d + 1 := rfl
    rw [hnv]
    rcases mem_writeFiles hkv with hkv | hkv
    · subst hkv
      simp only
      rw [htn, ghostNum_formatTNumber]
      omega
    · have := hbound kv hkv
      omega

theorem applyUpdates_links (args : UpdateArgs) (task0 : TaskFile) :
    (applyUpdates args task0).1.blocking = task0.blocking ∧
    (applyUpdates args task0).1.blockedBy = task0.blockedBy := by
  unfold applyUpdates
  refine ⟨?_, ?_⟩ <;>
  · cases args.stage <;> cases args.owner <;>
      by_cases h1 : optTruthy args.status <;>
      by_cases h2 : optTruthy args.title <;>
      by_cases h3 : optTruthy args.description <;>
      by_cases h4 : optTruthy args.priority <;>
      by_cases h5 : optTruthy args.tags <;>
      simp [h1, h2, h3, h4, h5]

theorem inv_update (tn : String) (args : UpdateArgs) (d : TasksDir)
    (h : StoreInv d) : StoreInv (cmdUpdate tn args d).1 := by
  unfold cmdUpdate
  cases hp : parseTNumber tn with
  | none => exact h
  | some tnc =>
    simp only
    cases hr : readTask d tnc with
    | none => exact h
    | some task0 =>
      simp only
      obtain ⟨hbl, hbb⟩ := applyUpdates_links args task0
      by_cases hf : (applyUpdates args task0).2 = []
      · rw [if_pos hf]
        exact h
      · rw [if_neg hf]
        exact inv_write_links_preserved d tnc task0 _ hr hbl hbb h

theorem inv_close (tn : String) (d : TasksDir) (h : StoreInv d) :
    StoreInv (cmdClose tn d).1 := by
  unfold cmdClose
  cases hp : parseTNumber tn with
  | none => exact h
  | some tnc =>
    simp only
    cases hr : readTask d tnc with
    | none => exact h
    | some task0 =>
      exact inv_write_links_preserved d tnc task0 _ hr rfl rfl h

/-- The two writes of one successful `add-blocking` preserve the store
invariant. -/
theorem inv_addBlocking_core (d : TasksDir) (pb pd : String) (A B : TaskFile)
    (hA : readTask d pb = some A)
    (hB : readTask (writeTask d pb
      { A with blocking := if pd ∈ A.blocking then A.blocking
          else A.blocking ++ [pd] }) pd = some B)
    (h : StoreInv d) :
    StoreInv (writeTask (writeTask d pb
      { A with blocking := if pd ∈ A.blocking then A.blocking
          else A.blocking ++ [pd] }) pd
      { B with blockedBy := if pb ∈ B.blockedBy then B.blockedBy
          else B.blockedBy ++ [pb] }) := by
  obtain ⟨hsym, hrefs, hbound⟩ := h
  set A' : TaskFile := { A with
    blocking := if pd ∈ A.blocking then A.blocking
      else A.blocking ++ [pd] } with hA'def
  set B' : TaskFile := { B with
    blockedBy := if pb ∈ B.blockedBy then B.blockedBy
      else B.blockedBy ++ [pb] } with hB'def
  set d1 : TasksDir := writeTask d pb A' with hd1def
  set d2 : TasksDir := writeTask d1 pd B' with hd2def
  have hr2pd : readTask d2 pd = some B' := readTask_writeTask_same d1 pd B'
  have hr2 : ∀ x, x ≠ pd → readTask d2 x = readTask d1 x :=
    fun x hx => readTask_writeTask_ne d1 pd B' x hx
  have hr1pb : readTask d1 pb = some A' := readTask_writeTask_same d pb A'
  have hr1 : ∀ x, x ≠ pb → readTask d1 x = readTask d x :=
    fun x hx => readTask_writeTask_ne d pb A' x hx
  have hmemBl : ∀ x, x ∈ A'.blocking ↔ x ∈ A.blocking ∨ x = pd :=
    fun x => mem_addIfAbsent
  have hmemBb : ∀ x, x ∈ B'.blockedBy ↔ x ∈ B.blockedBy ∨ x = pb :=
    fun x => mem_addIfAbsent
  have hAbb : A'.blockedBy = A.blockedBy := rfl
  have hBbl : B'.blocking = B.blocking := rfl
  have hmemd : (pb, A) ∈ d.files := readTask_mem hA
  -- how pd reads in the original store
  by_cases hpbd : pb = pd
  · -- self link: the second read sees the first write
    have hBA : B = A' := by
      rw [← hpbd] at hB
      rw [hr1pb] at hB
      exact (Option.some.inj hB).symm
    -- every x other than pb reads as in d
    have hro : ∀ x, x ≠ pb → readTask d2 x = readTask d x := by
      intro x hx
      rw [hr2 x (fun he => hx (he.trans hpbd.symm)), hr1 x hx]
    have hr2pb : readTask d2 pb = some B' := by
      rw [hpbd]
      exact hr2pd
    refine ⟨?_, ?_, ?_⟩
    · intro a b ta tb hra hrb
      by_cases ha : a = pb <;> by_cases hb : b = pb
      · rw [ha] at hra
        rw [hb] at hrb
        rw [hr2pb] at hra hrb
        obtain rfl := Option.some.inj hra
        obtain rfl := Option.some.inj hrb
        constructor
        · intro _
          rw [ha]
          exact (hmemBb pb).mpr (Or.inr rfl)
        · intro _
          rw [hb, hBbl, hBA]
          exact (hmemBl pb).mpr (Or.inr hpbd)
      · rw [ha] at hra
        rw [hr2pb] at hra
        obtain rfl := Option.some.inj hra
        rw [hro b hb] at hrb
        rw [hBbl, hBA, ha]
        rw [hmemBl b]
        have hb' : ¬ b = pd := fun he => hb (he.trans hpbd.symm)
        constructor
        · rintro (hm | hm)
          · exact (hsym pb b A tb hA hrb).mp hm
          · exact absurd hm hb'
        · intro hm
          exact Or.inl ((hsym pb b A tb hA hrb).mpr hm)
      · rw [hb] at hrb
        rw [hr2pb] at hrb
        obtain rfl := Option.some.inj hrb
        rw [hro a ha] at hra
        rw [hb]
        rw [hmemBb a]
        have hAbbBA : B.blockedBy = A.blockedBy := by rw [hBA]
        constructor
        · intro hm
          exact Or.inl (by
            rw [hAbbBA]
            exact (hsym a pb ta A hra hA).mp hm)
        · rintro (hm | hm)
          · rw [hAbbBA] at hm
            exact (hsym a pb ta A hra hA).mpr hm
          · exact absurd hm ha
      · rw [hro a ha] at hra
        rw [hro b hb] at hrb
        exact hsym a b ta tb hra hrb
    · intro kv hkv
      have hex : ∀ x, (∃ t, readTask d x = some t) →
          ∃ t, readTask d2 x = some t := by
        intro x hx
        by_cases hxx : x = pb
        · rw [hxx, hr2pb]
          exact ⟨B', rfl⟩
        · rw [hro x hxx]
          exact hx
      have hpbex : ∃ t, readTask d2 pb = some t := ⟨B', hr2pb⟩
      rcases mem_writeFiles hkv with hkv | hkv
      · subst hkv
        constructor
        · intro b hb
          rw [hBbl, hBA] at hb
          rcases (hmemBl b).mp hb with hm | hm
          · exact hex b ((hrefs (pb, A) hmemd).1 b hm)
          · rw [hm, ← hpbd]
            exact hpbex
        · intro b hb
          rcases (hmemBb b).mp hb with hm | hm
          · rw [hBA] at hm
            exact hex b ((hrefs (pb, A) hmemd).2 b hm)
          · rw [hm]
            exact hpbex
      · rcases mem_writeFiles hkv with hkv | hkv
        · subst hkv
          constructor
          · intro b hb
            rcases (hmemBl b).mp hb with hm | hm
            · exact hex b ((hrefs (pb, A) hmemd).1 b hm)
            · rw [hm, ← hpbd]
              exact hpbex
          · intro b hb
            rw [hAbb] at hb
            exact hex b ((hrefs (pb, A) hmemd).2 b hb)
        · exact ⟨fun b hb => hex b ((hrefs kv hkv).1 b hb),
            fun b hb => hex b ((hrefs kv hkv).2 b hb)⟩
    · intro kv hkv
      have hnv : nextVal d2 = nextVal d := rfl
      rw [hnv]
      rcases mem_writeFiles hkv with hkv | hkv
      · subst hkv
        have := hbound (pb, A) hmemd
        rw [← hpbd]
        exact this
      · rcases mem_writeFiles hkv with hkv | hkv
        · subst hkv
          exact hbound (pb, A) hmemd
        · exact hbound kv hkv
  · -- distinct endpoints
    have hBold : readTask d pd = some B := by
      rw [hr1 pd (fun he => hpbd he.symm)] at hB
      exact hB
    have hmemdB : (pd, B) ∈ d.files := readTask_mem hBold
    have hr2pb : readTask d2 pb = some A' := by
      rw [hr2 pb hpbd]
      exact hr1pb
    have hro : ∀ x, x ≠ pb → x ≠ pd → readTask d2 x = readTask d x := by
      intro x hx1 hx2
      rw [hr2 x hx2, hr1 x hx1]
    refine ⟨?_, ?_, ?_⟩
    · intro a b ta tb hra hrb
      by_cases ha1 : a = pb
      · rw [ha1] at hra
        rw [hr2pb] at hra
        obtain rfl := Option.some.inj hra
        by_cases hb1 : b = pd
        · rw [hb1] at hrb
          rw [hr2pd] at hrb
          obtain rfl := Option.some.inj hrb
          constructor
          · intro _
            rw [ha1]
            exact (hmemBb pb).mpr (Or.inr rfl)
          · intro _
            rw [hb1]
            exact (hmemBl pd).mpr (Or.inr rfl)
        · by_cases hb2 : b = pb
          · rw [hb2] at hrb
            rw [hr2pb] at hrb
            obtain rfl := Option.some.inj hrb
            rw [hmemBl b, hAbb, ha1]
            constructor
            · rintro (hm | hm)
              · rw [hb2] at hm
                exact (hsym pb pb A A hA hA).mp hm
              · exact absurd hm hb1
            · intro hm
              rw [hb2]
              exact Or.inl ((hsym pb pb A A hA hA).mpr hm)
          · rw [hro b hb2 hb1] at hrb
            rw [hmemBl b, ha1]
            constructor
            · rintro (hm | hm)
              · exact (hsym pb b A tb hA hrb).mp hm
              · exact absurd hm hb1
            · intro hm
              exact Or.inl ((hsym pb b A tb hA hrb).mpr hm)
      · by_cases ha2 : a = pd
        · rw [ha2] at hra
          rw [hr2pd] at hra
          obtain rfl := Option.some.inj hra
          rw [hBbl]
          by_cases hb1 : b = pd
          · rw [hb1] at hrb
            rw [hr2pd] at hrb
            obtain rfl := Option.some.inj hrb
            rw [hmemBb a, ha2, hb1]
            constructor
            · intro hm
              exact Or.inl ((hsym pd pd B B hBold hBold).mp hm)
            · rintro (hm | hm)
              · exact (hsym pd pd B B hBold hBold).mpr hm
              · exact absurd hm (fun he => hpbd (hm ▸ rfl))
          · by_cases hb2 : b = pb
            · rw [hb2] at hrb
              rw [hr2pb] at hrb
              obtain rfl := Option.some.inj hrb
              rw [hAbb, ha2, hb2]
              exact hsym pd pb B A hBold hA
            · rw [hro b hb2 hb1] at hrb
              rw [ha2]
              exact hsym pd b B tb hBold hrb
        · rw [hro a ha1 ha2] at hra
          by_cases hb1 : b = pd
          · rw [hb1] at hrb
            rw [hr2pd] at hrb
            obtain rfl := Option.some.inj hrb
            rw [hmemBb a, hb1]
            constructor
            · intro hm
              exact Or.inl ((hsym a pd ta B hra hBold).mp hm)
            · rintro (hm | hm)
              · exact (hsym a pd ta B hra hBold).mpr hm
              · exact absurd hm ha1
          · by_cases hb2 : b = pb
            · rw [hb2] at hrb
              rw [hr2pb] at hrb
              obtain rfl := Option.some.inj hrb
              rw [hAbb, hb2]
              exact hsym a pb ta A hra hA
            · rw [hro b hb2 hb1] at hrb
              exact hsym a b ta tb hra hrb
    · intro kv hkv
      have hex : ∀ x, (∃ t, readTask d x = some t) →
          ∃ t, readTask d2 x = some t := by
        intro x hx
        by_cases hx1 : x = pd
        · rw [hx1, hr2pd]
          exact ⟨B', rfl⟩
        · by_cases hx2 : x = pb
          · rw [hx2, hr2pb]
            exact ⟨A', rfl⟩
          · rw [hro x hx2 hx1]
            exact hx
      have hpbex : ∃ t, readTask d2 pb = some t := ⟨A', hr2pb⟩
      have hpdex : ∃ t, readTask d2 pd = some t := ⟨B', hr2pd⟩
      rcases mem_writeFiles hkv with hkv | hkv
      · subst hkv
        constructor
        · intro b hb
          rw [hBbl] at hb
          exact hex b ((hrefs (pd, B) hmemdB).1 b hb)
        · intro b hb
          rcases (hmemBb b).mp hb with hm | hm
          · exact hex b ((hrefs (pd, B) hmemdB).2 b hm)
          · rw [hm]
            exact hpbex
      · rcases mem_writeFiles hkv with hkv | hkv
        · subst hkv
          constructor
          · intro b hb
            rcases (hmemBl b).mp hb with hm | hm
            · exact hex b ((hrefs (pb, A) hmemd).1 b hm)
            · rw [hm]
              exact hpdex
          · intro b hb
            rw [hAbb] at hb
            exact hex b ((hrefs (pb, A) hmemd).2 b hb)
        · exact ⟨fun b hb => hex b ((hrefs kv hkv).1 b hb),
            fun b hb => hex b ((hrefs kv hkv).2 b hb)⟩
    · intro kv hkv
      have hnv : nextVal d2 = nextVal d := rfl
      rw [hnv]
      rcases mem_writeFiles hkv with hkv | hkv
      · subst hkv
        exact hbound (pd, B) hmemdB
      · rcases mem_writeFiles hkv with hkv | hkv
        · subst hkv
          exact hbound (pb, A) hmemd
        · exact hbound kv hkv

theorem inv_addBlocking (rb rd : String) (d : TasksDir) (h : StoreInv d)
    (hok : (cmdAddBlocking rb rd d).2 = none) :
    StoreInv (cmdAddBlocking rb rd d).1 := by
  unfold cmdAddBlocking at hok ⊢
  cases hpb : parseTNumber rb with
  | none =>
    rw [hpb] at hok
    exact Option.noConfusion hok
  | some pb =>
    simp only [hpb] at hok ⊢
    cases hpd : parseTNumber rd with
    | none =>
      rw [hpd] at hok
      exact Option.noConfusion hok
    | some pd =>
      simp only [hpd] at hok ⊢
      cases hA : readTask d pb with
      | none =>
        rw [hA] at hok
        exact Option.noConfusion hok
      | some A =>
        simp only [hA] at hok ⊢
        cases hB : readTask (writeTask d pb
            { A with blocking := if pd ∈ A.blocking then A.blocking
                else A.blocking ++ [pd] }) pd with
        | none =>
          rw [hB] at hok
          exact Option.noConfusion hok
        | some B =>
          simp only [hB]
          exact inv_addBlocking_core d pb pd A B hA hB h

theorem inv_runOp (op : TaskOp) (d : TasksDir) (h : StoreInv d)
    (hok : match op with
      | .addBlocking _ _ => (runOp op d).2 = none
      | _ => True) :
    StoreInv (runOp op d).1 := by
  cases op with
  | create args => exact inv_create args d h
  | addBlocking rb rd => exact inv_addBlocking rb rd d h hok
  | update tn args => exact inv_update tn args d h
  | close tn => exact inv_close tn d h

theorem inv_applyOps : ∀ (ops : List TaskOp) (d : TasksDir), StoreInv d →
    addBlockingAllOk d ops → StoreInv (applyOps d ops) := by
  intro ops
  induction ops with
  | nil => intro d h _; exact h
  | cons op rest ih =>
    intro d h hok
    obtain ⟨hok1, hok2⟩ := hok
    exact ih (runOp op d).1 (inv_runOp op d h hok1) hok2

def counterexampleOps : List TaskOp :=
  [.create { title := "A" }, .addBlocking "T001" "T002",
   .create { title := "B" }]

/-- C2 counterexample: the link-symmetry invariant fails after a
sequence in which an `add-blocking` names a not-yet-existing blocked
task (the command writes the blocker side, then exits at the failed
read of the blocked side) and a later `create` allocates that very
T-number: T002 is in T001's `blocking` but T001 is not in T002's
`blocked_by`, with both tasks present in the store. -/
theorem claim_C2_counterexample :
    (readTask (applyOps emptyDir counterexampleOps) "T001").map
        (fun t => t.blocking) = some ["T002"] ∧
    (readTask (applyOps emptyDir counterexampleOps) "T002").map
        (fun t => t.blockedBy) = some [] ∧
    ¬ linkSymm (applyOps emptyDir counterexampleOps) := by
  refine ⟨rfl, rfl, ?_⟩
  intro hsym
  cases hra : readTask (applyOps emptyDir counterexampleOps) "T001" with
  | none =>
    have : (Option.map (fun t => t.blocking)
        (readTask (applyOps emptyDir counterexampleOps) "T001")) =
        some ["T002"] := rfl
    rw [hra] at this
    exact Option.noConfusion this
  | some ta =>
    cases hrb : readTask (applyOps emptyDir counterexampleOps) "T002" with
    | none =>
      have : (Option.map (fun t => t.blockedBy)
          (readTask (applyOps emptyDir counterexampleOps) "T002")) =
          some [] := rfl
      rw [hrb] at this
      exact Option.noConfusion this
    | some tb =>
      have hta : ta.blocking = ["T002"] := by
        have : (Option.map (fun t => t.blocking)
            (readTask (applyOps emptyDir counterexampleOps) "T001")) =
            some ["T002"] := rfl
        rw [hra] at this
        exact Option.some.inj this
      have htb : tb.blockedBy = [] := by
        have : (Option.map (fun t => t.blockedBy)
            (readTask (applyOps emptyDir counterexampleOps) "T002")) =
            some [] := rfl
        rw [hrb] at this
        exact Option.some.inj this
      have hiff := hsym "T001" "T002" ta tb hra hrb
      rw [hta, htb] at hiff
      exact absurd (hiff.mp (List.mem_cons_self _ _)) (List.not_mem_nil _)

/-- C2 (amended): starting from an empty task store, after every
sequence of `create`, `add-blocking`, `update` and `close` operations
in which every `add-blocking` succeeds (both its endpoints name
existing tasks, so it performs both writes), link symmetry holds: for
all tasks A and B in the store, B is in A's blocking list iff A is in
B's blocked_by list.  A failing `add-blocking` can leave a one-sided
link behind, as the counterexample shows. -/
theorem claim_C2_amended (ops : List TaskOp)
    (hok : addBlockingAllOk emptyDir ops) :
    linkSymm (applyOps emptyDir ops) :=
  (inv_applyOps ops emptyDir storeInv_empty hok).1

def witnessOps : List TaskOp :=
  [.create { title := "X" }, .create { title := "Y" },
   .addBlocking "T001" "T002",
   .update "T002" { status := some "in_progress" }, .close "T001"]

/-- C2 witness: the amended theorem instantiated on a concrete
successful trace (create, create, add-blocking, update, close). -/
theorem claim_C2_amended_witness :
    linkSymm (applyOps emptyDir witnessOps) :=
  claim_C2_amended witnessOps
    ⟨trivial, trivial, rfl, trivial, trivial, trivial⟩

end ClawTown
